import Mathlib

/-!
# Verification of the recursive reasoning orchestration engine

This file is a shallow embedding, in Lean 4, of the core components of the
`gemini-deepthink-clone` repository:

* the Decomposer service (`analyzeDecomposition` / `validateSubProblems`),
* the Aggregator service (`aggregateChildSolutions` / `createFallbackAggregation`),
* the ToT-necessity classifier and the backbone selection step of the router,
* the Synthesis backbone (`runSynthesis`, the Diverge → Critique → Synthesize pipeline),
* the legacy deep-think orchestrator (`orchestrateDeepThink`) and the
  rate-limit batch-recovery logic of its verification fan-out,
* the local decomposition / aggregation parsers of the ToT backbone, and
* the two tree execution engines (`runToT` of `tot.backbone.ts` and
  `executeToT` of `totOrchestrator.ts`), expressed as one generic, fuel-bounded
  interpreter instantiated twice.

Modelling conventions, used uniformly below:

* The language-model completion service (`generateContent`) is an oracle.
  A response is either a rejection of the returned promise, or a text which is
  empty, non-JSON ("malformed"), or parses to a JSON value.  The embedding
  therefore works with the *parse outcome* of each response; `JSON.parse`
  itself is external library code.
* JavaScript property access is modelled on the JSON value: access on `null`
  throws a `TypeError`, access on any other non-object value yields
  `undefined` (here: `none`), access on an object looks up the field.
* Persona prompt functions and observer callbacks are external collaborators;
  following the spec they are modelled as pure, non-throwing functions.
  Prompt *strings* are inputs of the oracle, which the model keys by call
  site, so prompt-building functions do not appear except where their output
  is part of a component's result (`prompts.final`).
* `Promise.all` over a list of tasks is modelled by running the tasks from the
  left: effects of every task are applied, and the join rejects with the
  leftmost rejection.  The properties proved below (per-snapshot structural
  invariants and final-value facts) are insensitive to sibling interleaving,
  because in the source every status transition of a parent past its children
  happens only after the `await Promise.all` join.
* Timestamps (`createdAt` / `completedAt`) and usage-increment notifications
  are not claim-relevant and are omitted from the state.
-/
/-! ## JSON values and completion-response texts -/
/-- A JSON value, as produced by a successful `JSON.parse`.
Numbers are modelled as rationals (the source uses literals such as `0.5`);
floating-point rounding is irrelevant to every claim below. -/
inductive Json where
  | null : Json
  | bool (b : Bool) : Json
  | num (n : Rat) : Json
  | str (s : String) : Json
  | arr (xs : List Json) : Json
  | obj (fields : List (String × Json)) : Json
deriving Repr, Inhabited

mutual

/-- Decidable equality of JSON values (the nested occurrence of `List Json`
prevents automatic derivation). -/
def Json.decEq : (a b : Json) → Decidable (a = b)
  | .null, .null => .isTrue rfl
  | .bool a, .bool b =>
    if h : a = b then .isTrue (by rw [h]) else .isFalse (by intro hc; cases hc; exact h rfl)
  | .num a, .num b =>
    if h : a = b then .isTrue (by rw [h]) else .isFalse (by intro hc; cases hc; exact h rfl)
  | .str a, .str b =>
    if h : a = b then .isTrue (by rw [h]) else .isFalse (by intro hc; cases hc; exact h rfl)
  | .arr xs, .arr ys =>
    match Json.decEqList xs ys with
    | .isTrue h => .isTrue (by rw [h])
    | .isFalse h => .isFalse (by intro hc; cases hc; exact h rfl)
  | .obj xs, .obj ys =>
    match Json.decEqFields xs ys with
    | .isTrue h => .isTrue (by rw [h])
    | .isFalse h => .isFalse (by intro hc; cases hc; exact h rfl)
  | .null, .bool _ => .isFalse (by intro h; cases h)
  | .null, .num _ => .isFalse (by intro h; cases h)
  | .null, .str _ => .isFalse (by intro h; cases h)
  | .null, .arr _ => .isFalse (by intro h; cases h)
  | .null, .obj _ => .isFalse (by intro h; cases h)
  | .bool _, .null => .isFalse (by intro h; cases h)
  | .bool _, .num _ => .isFalse (by intro h; cases h)
  | .bool _, .str _ => .isFalse (by intro h; cases h)
  | .bool _, .arr _ => .isFalse (by intro h; cases h)
  | .bool _, .obj _ => .isFalse (by intro h; cases h)
  | .num _, .null => .isFalse (by intro h; cases h)
  | .num _, .bool _ => .isFalse (by intro h; cases h)
  | .num _, .str _ => .isFalse (by intro h; cases h)
  | .num _, .arr _ => .isFalse (by intro h; cases h)
  | .num _, .obj _ => .isFalse (by intro h; cases h)
  | .str _, .null => .isFalse (by intro h; cases h)
  | .str _, .bool _ => .isFalse (by intro h; cases h)
  | .str _, .num _ => .isFalse (by intro h; cases h)
  | .str _, .arr _ => .isFalse (by intro h; cases h)
  | .str _, .obj _ => .isFalse (by intro h; cases h)
  | .arr _, .null => .isFalse (by intro h; cases h)
  | .arr _, .bool _ => .isFalse (by intro h; cases h)
  | .arr _, .num _ => .isFalse (by intro h; cases h)
  | .arr _, .str _ => .isFalse (by intro h; cases h)
  | .arr _, .obj _ => .isFalse (by intro h; cases h)
  | .obj _, .null => .isFalse (by intro h; cases h)
  | .obj _, .bool _ => .isFalse (by intro h; cases h)
  | .obj _, .num _ => .isFalse (by intro h; cases h)
  | .obj _, .str _ => .isFalse (by intro h; cases h)
  | .obj _, .arr _ => .isFalse (by intro h; cases h)

/-- Decidable equality of JSON value lists. -/
def Json.decEqList : (a b : List Json) → Decidable (a = b)
  | [], [] => .isTrue rfl
  | [], _ :: _ => .isFalse (by intro h; cases h)
  | _ :: _, [] => .isFalse (by intro h; cases h)
  | x :: xs, y :: ys =>
    match Json.decEq x y with
    | .isTrue h1 =>
      match Json.decEqList xs ys with
      | .isTrue h2 => .isTrue (by rw [h1, h2])
      | .isFalse h2 => .isFalse (by intro hc; cases hc; exact h2 rfl)
    | .isFalse h1 => .isFalse (by intro hc; cases hc; exact h1 rfl)

/-- Decidable equality of JSON object field lists. -/
def Json.decEqFields : (a b : List (String × Json)) → Decidable (a = b)
  | [], [] => .isTrue rfl
  | [], _ :: _ => .isFalse (by intro h; cases h)
  | _ :: _, [] => .isFalse (by intro h; cases h)
  | (k, v) :: xs, (k2, v2) :: ys =>
    if hk : k = k2 then
      match Json.decEq v v2 with
      | .isTrue h1 =>
        match Json.decEqFields xs ys with
        | .isTrue h2 => .isTrue (by rw [hk, h1, h2])
        | .isFalse h2 => .isFalse (by intro hc; cases hc; exact h2 rfl)
      | .isFalse h1 => .isFalse (by intro hc; cases hc; exact h1 rfl)
    else .isFalse (by intro hc; cases hc; exact hk rfl)

end

instance : DecidableEq Json := Json.decEq

/-- Field lookup on a JSON value, mirroring JavaScript property access on a
non-null receiver: `none` is `undefined` (absent field, or receiver is a
primitive or an array). -/
def Json.getField : Json → String → Option Json
  | .obj fields, k => (fields.find? (fun p => p.1 == k)).map Prod.snd
  | _, _ => none

/-- JavaScript truthiness of a JSON value. -/
def Json.truthy : Json → Bool
  | .null => false
  | .bool b => b
  | .num n => n != 0
  | .str s => s != ""
  | .arr _ => true
  | .obj _ => true

/-- JavaScript truthiness of a possibly-`undefined` value. -/
def jsTruthy : Option Json → Bool
  | none => false
  | some j => j.truthy

mutual

/-- Rendering of a JSON value in a JavaScript string context. -/
def Json.disp : Json → String
  | .null => "null"
  | .bool b => cond b "true" "false"
  | .num n => toString n
  | .str s => s
  | .arr xs => String.intercalate "," (Json.dispList xs)
  | .obj _ => "[object Object]"

/-- Rendering of the elements of a JSON array. -/
def Json.dispList : List Json → List String
  | [] => []
  | x :: xs => Json.disp x :: Json.dispList xs

end

/-- Rendering of a possibly-`undefined` JSON value in a template-literal
context (`${v}`), used only to plumb dynamically-typed values into
`string`-typed positions of the source. -/
def dispJs : Option Json → String
  | none => "undefined"
  | some j => j.disp

/-- `v || dflt` where the result is used as a string (`parsed.reasoning || ""`
and similar sites). -/
def jsStrOr (v : Option Json) (dflt : String) : String :=
  if jsTruthy v then dispJs v else dflt

/-- The text of one completion response, classified by its parse outcome:
`empty` is the empty (falsy) text, `malformed` is a non-empty text on which
`JSON.parse` throws, and `json raw j` is a non-empty text `raw` parsing to
the value `j`. -/
inductive RespText where
  | empty : RespText
  | malformed (raw : String) : RespText
  | json (raw : String) (j : Json) : RespText
deriving Repr, DecidableEq

/-- The raw text of a response (`response.text`, with the empty text for
`empty`). -/
def RespText.rawText : RespText → String
  | .empty => ""
  | .malformed raw => raw
  | .json raw _ => raw

/-- Outcome of `JSON.parse(response.text || "{}")`: the empty text is replaced
by `"{}"` (parsing to the empty object), a malformed text throws (`none`). -/
def RespText.parseOrEmptyObj : RespText → Option Json
  | .empty => some (.obj [])
  | .malformed _ => none
  | .json _ j => some j

/-- Outcome of `JSON.parse(response.text || "[]")` (the divergence site). -/
def RespText.parseOrEmptyArr : RespText → Option Json
  | .empty => some (.arr [])
  | .malformed _ => none
  | .json _ j => some j

/-! ## Decomposer service (`decomposer.ts`)

`analyzeDecomposition(model, query, depth, maxDepth, forceDecomposition)`:
the depth guard runs before any completion request; the response is parsed
defensively; sub-problems are validated; a `true` decision with fewer than 2
validated sub-problems is overridden to `false`. -/
/-- A validated sub-problem (all of `id`, `title`, `query` are strings). -/
structure SubProblemE where
  id : String
  title : String
  query : String
  dependency : Option String
deriving Repr, DecidableEq

/-- Result of the decomposition analysis. -/
structure DecompResultE where
  shouldDecompose : Bool
  reasoning : String
  subProblems : List SubProblemE
deriving Repr, DecidableEq

/-- `validateSubProblems`: keep only entries that are non-null objects whose
`id`, `title` and `query` fields are strings; a non-array input yields `[]`.
(An array entry passes the JavaScript `typeof sp === "object"` test but has
no fields, so it is dropped by the string checks either way.) -/
def validateSubProblemsE (raw : Option Json) : List SubProblemE :=
  match raw with
  | some (.arr xs) =>
    xs.filterMap fun e =>
      match e.getField "id", e.getField "title", e.getField "query" with
      | some (.str i), some (.str t), some (.str q) =>
        some { id := i, title := t, query := q,
               dependency := match e.getField "dependency" with
                 | some (.str d) => some d
                 | _ => none }
      | _, _, _ => none
  | _ => []

/-- `DEFAULT_DECOMPOSITION` of the decomposer service. -/
def defaultDecomposition : DecompResultE :=
  { shouldDecompose := false,
    reasoning := "Decomposition analysis failed, defaulting to direct execution.",
    subProblems := [] }

/-- The decomposer service `analyzeDecomposition`, as a function of the
response oracle.  The second component records whether a completion request
was issued.  A rejected completion call, an empty text, a malformed text, a
`null` value (whose property access throws inside the `try`) and a missing
boolean `shouldDecompose` all fall back to `defaultDecomposition`. -/
def decomposerAnalyze (depth maxDepth : Nat) (resp : Except Unit RespText) :
    DecompResultE × Bool :=
  if maxDepth ≤ depth then
    ({ shouldDecompose := false,
       reasoning := "Max depth (" ++ toString maxDepth ++ ") reached. Executing as leaf node.",
       subProblems := [] }, false)
  else
    match resp with
    | .error _ => (defaultDecomposition, true)
    | .ok .empty => (defaultDecomposition, true)
    | .ok (.malformed _) => (defaultDecomposition, true)
    | .ok (.json _ j) =>
      match j with
      | .null => (defaultDecomposition, true)
      | _ =>
        match j.getField "shouldDecompose" with
        | some (.bool b) =>
          let subs := if b then validateSubProblemsE (j.getField "subProblems") else []
          let reasoning := match j.getField "reasoning" with
            | some (.str s) => s
            | _ => "No reasoning provided"
          if b && subs.length < 2 then
            ({ shouldDecompose := false,
               reasoning := "Decomposition cancelled: insufficient sub-problems extracted.",
               subProblems := subs }, true)
          else
            ({ shouldDecompose := b, reasoning := reasoning, subProblems := subs }, true)
        | _ => (defaultDecomposition, true)

/-! ## Aggregator service (`aggregator.ts`) -/
/-- Aggregation input: a solved child with its sub-problem query. -/
structure ChildSolutionE where
  query : String
  solution : String
deriving Repr, DecidableEq

/-- Aggregation result. -/
structure AggResultE where
  aggregatedSolution : String
  childContributions : List String
deriving Repr, DecidableEq

/-- `createFallbackAggregation`: deterministic concatenation of the child
solutions under "Part N" headings. -/
def createFallbackAggregation (children : List ChildSolutionE) : AggResultE :=
  { aggregatedSolution :=
      String.intercalate "\n\n---\n\n"
        ((children.enum).map fun p =>
          "## Part " ++ toString (p.1 + 1) ++ ": " ++ p.2.query ++ "\n\n" ++ p.2.solution),
    childContributions :=
      (children.enum).map fun p => "Part " ++ toString (p.1 + 1) ++ ": " ++ p.2.query }

/-- The aggregator service `aggregateChildSolutions`, as a function of the
response oracle; the second component records whether a completion request
was issued.  Zero children: sentinel.  One child: verbatim bypass, no
request.  Two or more: one request; a rejection, empty text, parse failure,
`null` value or non-string `aggregatedSolution` field all fall back to
`createFallbackAggregation`. -/
def aggregateService (children : List ChildSolutionE) (resp : Except Unit RespText) :
    AggResultE × Bool :=
  match children with
  | [] => ({ aggregatedSolution := "No child solutions to aggregate.",
             childContributions := [] }, false)
  | [c] => ({ aggregatedSolution := c.solution,
              childContributions := ["Directly used solution from: " ++ c.query] }, false)
  | _ =>
    match resp with
    | .error _ => (createFallbackAggregation children, true)
    | .ok .empty => (createFallbackAggregation children, true)
    | .ok (.malformed _) => (createFallbackAggregation children, true)
    | .ok (.json _ j) =>
      match j with
      | .null => (createFallbackAggregation children, true)
      | _ =>
        match j.getField "aggregatedSolution" with
        | some (.str s) =>
          ({ aggregatedSolution := s,
             childContributions :=
               match j.getField "childContributions" with
               | some (.arr xs) => xs.filterMap fun x =>
                   match x with
                   | .str c => some c
                   | _ => none
               | _ => (children.enum).map fun p =>
                   "Child " ++ toString (p.1 + 1) ++ " contribution" }, true)
        | _ => (createFallbackAggregation children, true)

/-! ## ToT-necessity classifier (`classifier.ts`) and backbone selection
(`registry.ts`, `routeToOrchestrator`, STEP 2)

The classifier issues one completion request and parses the decision
defensively; any failure falls back to "no ToT needed".  The router then
selects the ToT backbone exactly when Deep Mode is forced or the classifier
affirmed the need.  The `complexity` field of the classifier result is only
logged by the router. -/
/-- Result of the ToT-necessity classification. -/
structure ToTNecessityE where
  needsToT : Bool
  complexity : String
  reasoning : String
deriving Repr, DecidableEq

/-- Fallback classification used when the call or the parse fails. -/
def classifierFallback : ToTNecessityE :=
  { needsToT := false, complexity := "moderate",
    reasoning := "Fallback: classification failed" }

/-- `classifyNeedsToT`, as a function of the response oracle.  A rejected
call, a malformed text and a `null` value (property access throws inside the
`try`) fall back to `classifierFallback`; the empty text parses as the empty
object, yielding `needsToT = false` with the field defaults. -/
def classifyNeedsToTE (resp : Except Unit RespText) : ToTNecessityE :=
  match resp with
  | .error _ => classifierFallback
  | .ok rt =>
    match rt.parseOrEmptyObj with
    | none => classifierFallback
    | some .null => classifierFallback
    | some j =>
      { needsToT := jsTruthy (j.getField "needsToT"),
        complexity := jsStrOr (j.getField "complexity") "moderate",
        reasoning := jsStrOr (j.getField "reasoning") "No reasoning provided" }

/-- The two backbones the router can select. -/
inductive BackboneChoice where
  | tot : BackboneChoice
  | synthesis : BackboneChoice
deriving Repr, DecidableEq

/-- The backbone-selection step of `routeToOrchestrator`: Deep Mode forces
the ToT backbone with no classification call; otherwise the classifier
decides, and `useToT` is exactly its `needsToT` field. -/
def selectBackbone (forceDeepMode : Bool) (resp : Except Unit RespText) :
    BackboneChoice :=
  if forceDeepMode then .tot
  else if (classifyNeedsToTE resp).needsToT then .tot
  else .synthesis

/-! ## Local parsers of the ToT backbone (`tot.backbone.ts`)

These differ from the decomposer / aggregator services: `generateContent` is
awaited *outside* the `try`, so a rejected completion call propagates out of
the node being processed; and the fallbacks are weaker (no sub-problem
validation, no decision override, no "Part N" concatenation). -/
/-- `analyzeDecomposition` of `tot.backbone.ts`.  The completion call is
outside the `try`: a rejection propagates (`.error`).  A malformed text or a
`null` value throws inside the `try` and yields the "Failed to parse"
fallback; otherwise `shouldDecompose` is the truthiness of the field and
`subProblems` is the array value or `[]`.  Raw sub-problem entries are
converted to the record shape through the JavaScript string rendering of
their fields, which is how the engine consumes them. -/
def analyzeDecompositionB (resp : Except Unit RespText) :
    Except Unit DecompResultE :=
  match resp with
  | .error _ => .error ()
  | .ok rt =>
    match rt.parseOrEmptyObj with
    | none => .ok { shouldDecompose := false, reasoning := "Failed to parse",
                    subProblems := [] }
    | some .null => .ok { shouldDecompose := false, reasoning := "Failed to parse",
                          subProblems := [] }
    | some j =>
      .ok { shouldDecompose := jsTruthy (j.getField "shouldDecompose"),
            reasoning := jsStrOr (j.getField "reasoning") "",
            subProblems :=
              match j.getField "subProblems" with
              | some (.arr xs) => xs.map fun e =>
                  { id := dispJs (e.getField "id"),
                    title := dispJs (e.getField "title"),
                    query := dispJs (e.getField "query"),
                    dependency := none }
              | _ => [] }

/-- Aggregation result as parsed by the backbone. -/
structure BAggResultE where
  aggregatedSolution : Json
  childContributions : List Json
deriving Repr, DecidableEq

/-- `aggregateChildSolutions` of `tot.backbone.ts`.  The completion call is
outside the `try`: a rejection propagates.  A malformed text or a `null`
value throws inside the `try` and falls back to the *raw response text* with
no contributions; a missing or falsy `aggregatedSolution` field collapses to
the empty string (`parsed.aggregatedSolution || ""`). -/
def aggregateB (resp : Except Unit RespText) : Except Unit BAggResultE :=
  match resp with
  | .error _ => .error ()
  | .ok rt =>
    match rt.parseOrEmptyObj with
    | none => .ok { aggregatedSolution := .str rt.rawText, childContributions := [] }
    | some .null => .ok { aggregatedSolution := .str rt.rawText, childContributions := [] }
    | some j =>
      .ok { aggregatedSolution :=
              (if jsTruthy (j.getField "aggregatedSolution") then
                (j.getField "aggregatedSolution").getD (.str "")
              else .str ""),
            childContributions :=
              match j.getField "childContributions" with
              | some (.arr xs) => xs
              | _ => [] }

/-! ## Synthesis backbone (`synthesis.backbone.ts`, `runSynthesis`)

The whole Diverge → Critique → Synthesize body sits in one `try`; the
function never rejects: every internal exception (completion-call rejection,
`TypeError` from a dynamic access, parse failure escaping a local fallback)
lands in the outer `catch`, which returns `prompts.final(query)` together
with the thinking process accumulated so far. -/
/-- A JavaScript exception: an optional `status` code and a message. -/
structure JsError where
  status : Option Nat
  message : String
deriving Repr, DecidableEq

/-- A `TypeError` raised by a property access on `null`/`undefined`. -/
def typeErrorJs : JsError := { status := none, message := "TypeError" }

/-- `{...o, [k]: v}` on a JSON value: object spread setting a field.  On a
primitive or array receiver the claim-relevant observable is the single set
field, which is how it is modelled. -/
def jsSetField (o : Json) (k : String) (v : Json) : Json :=
  match o with
  | .obj fs =>
    if (fs.find? (fun p => p.1 == k)).isSome then
      .obj (fs.map fun p => if p.1 == k then (p.1, v) else p)
    else .obj (fs ++ [(k, v)])
  | _ => .obj [(k, v)]

/-- `{...o, [k]: v}` where `v` may be `undefined`; an `undefined`-valued
property is observationally an absent one, so the field is removed. -/
def jsSetFieldOpt (o : Json) (k : String) (v : Option Json) : Json :=
  match v with
  | some j => jsSetField o k j
  | none =>
    match o with
    | .obj fs => .obj (fs.filter fun p => p.1 != k)
    | _ => o

/-- Leftmost-rejection join of a list of settled tasks (`Promise.all` after
every task has run). -/
def collectExcept : List (Except ε α) → Except ε (List α)
  | [] => .ok []
  | .ok a :: rest => (collectExcept rest).map (a :: ·)
  | .error e :: _ => .error e

/-- The single fallback "direct execution" strategy substituted when the
divergence response fails to parse. -/
def defaultStrategyList : Json :=
  .arr [.obj [("id", .str "default"), ("title", .str "Standard Analysis"),
              ("strategy", .str "Direct execution."), ("assumption", .str "Direct response")]]

/-- Divergence parse site: `JSON.parse(text || "[]")` with the fallback
strategy list on a parse failure.  The empty text parses to `[]` — the
fallback is *not* substituted in that case. -/
def parseStrategies : RespText → Json
  | .empty => .arr []
  | .malformed _ => defaultStrategyList
  | .json _ j => j

/-- Default critique kept when the critique response fails to parse. -/
def defaultCritique : Json :=
  .obj [("invalidity_triggers", .arr []), ("critical_flaws", .str "Evaluation failed.")]

/-- Critique parse site: `JSON.parse(text || "{}")` with an empty `catch`. -/
def parseCritique : RespText → Json
  | .empty => .obj []
  | .malformed _ => defaultCritique
  | .json _ j => j

/-- One critique task: completion call, defensive parse, access of
`critical_flaws` (throws on a `null` parse result), merge of the critique
onto the strategy. -/
def critiqueSingleE (resp : Except JsError RespText) (s : Json) : Except JsError Json :=
  match resp with
  | .error e => .error e
  | .ok rt =>
    match parseCritique rt with
    | .null => .error typeErrorJs
    | c => .ok (jsSetField s "critique" c)

/-- The minimal "standard response" blueprint kept when the synthesis
response fails to parse. -/
def defaultBlueprintJson : Json :=
  .obj [("blueprint", .str "Execute standard response."), ("objective", .str "Help user"),
        ("tone", .str "professional"), ("safeguards", .arr [])]

/-- Synthesis parse site: `JSON.parse(text || "{}")` with an empty `catch`.
The empty text parses to `{}`, *replacing* the default blueprint. -/
def parseBlueprint : RespText → Json
  | .empty => .obj []
  | .malformed _ => defaultBlueprintJson
  | .json _ j => j

/-- Oracle for one run of the Diverge → Critique → Synthesize pipeline:
one divergence response, one critique response per strategy index, one
synthesis response. -/
structure SynthEnv where
  divResp : Except JsError RespText
  critResp : Nat → Except JsError RespText
  synthResp : Except JsError RespText

/-- Tags of the completion requests a pipeline run issues, in order. -/
inductive SynthCall where
  | divCall : SynthCall
  | critCall (i : Nat) : SynthCall
  | synthCall : SynthCall
deriving Repr, DecidableEq

/-- The claim-relevant projection of a `ThinkingProcess`. -/
structure ThinkingE where
  state : String
  hypotheses : Json
  masterBlueprint : Option Json
deriving Repr, DecidableEq

/-- Result of one pipeline run: the final prompt, the final thinking
process, and the completion requests issued. -/
structure SynthResultE where
  prompt : String
  thinking : ThinkingE
  calls : List SynthCall
deriving Repr, DecidableEq

/-- The prompt functions a backbone receives from its orchestrator; only
`final` shapes a backbone result (the other prompt builders feed the
completion oracle, which the model keys by call site). -/
structure PromptsE where
  final : String → Option Json → String

/-- `runSynthesis`.  Control flow mirrored from the source:
divergence parse with fallback; explore-path cap at 3 in ToT mode; parallel
critique fan-out (every task runs, the join rejects with the leftmost
rejection, and there is no rate-limit recovery here); synthesis parse with
fallback; the `${masterBlueprint.safeguards.length}` access throws when the
parsed blueprint is `null` or lacks `safeguards`; every raised exception
reaches the outer catch, which returns `prompts.final(query)`. -/
def runSynthesisE (query : String) (prompts : PromptsE) (env : SynthEnv)
    (isToTMode : Bool) : SynthResultE :=
  let think0 : ThinkingE := { state := "diverging", hypotheses := .arr [], masterBlueprint := none }
  match env.divResp with
  | .error _ => { prompt := prompts.final query none, thinking := think0, calls := [.divCall] }
  | .ok rt =>
    let strategies := parseStrategies rt
    let strategies := match strategies with
      | .arr xs => if isToTMode ∧ 3 < xs.length then Json.arr (xs.take 3) else .arr xs
      | other => other
    let think1 : ThinkingE := { think0 with state := "critiquing", hypotheses := strategies }
    match strategies with
    | .arr xs =>
      let calls := SynthCall.divCall :: xs.enum.map (fun p => SynthCall.critCall p.1)
      let outs := xs.enum.map fun p => critiqueSingleE (env.critResp p.1) p.2
      match collectExcept outs with
      | .error _ => { prompt := prompts.final query none, thinking := think1, calls := calls }
      | .ok critiqued =>
        let think2 : ThinkingE := { think1 with state := "synthesizing", hypotheses := .arr critiqued }
        let calls := calls ++ [SynthCall.synthCall]
        match env.synthResp with
        | .error _ => { prompt := prompts.final query none, thinking := think2, calls := calls }
        | .ok srt =>
          let mb := parseBlueprint srt
          match mb, mb.getField "safeguards" with
          | .null, _ => { prompt := prompts.final query none, thinking := think2, calls := calls }
          | _, none => { prompt := prompts.final query none, thinking := think2, calls := calls }
          | _, some _ =>
            { prompt := prompts.final query (mb.getField "blueprint"),
              thinking := { think2 with masterBlueprint := some mb }, calls := calls }
    | _ =>
      { prompt := prompts.final query none, thinking := think1, calls := [.divCall] }

/-! ## Legacy deep-think orchestrator (`orchestratorService.ts`,
`orchestrateDeepThink`)

Structurally the same Diverge → Critique → Synthesize pipeline with fixed
prompt templates and no explore-path cap; its `catch` returns the original
message as the prompt.  The legacy tree orchestrator's leaf step consumes
only `finalState`, so the fixed final-generation prompt string is not
modelled. -/
/-- `orchestrateDeepThink` of the legacy orchestrator service: the final
thinking process of one run (never rejects). -/
def orchestrateDeepThinkE (env : SynthEnv) : ThinkingE :=
  let think0 : ThinkingE := { state := "diverging", hypotheses := .arr [], masterBlueprint := none }
  match env.divResp with
  | .error _ => think0
  | .ok rt =>
    let strategies := parseStrategies rt
    let think1 : ThinkingE := { think0 with state := "critiquing", hypotheses := strategies }
    match strategies with
    | .arr xs =>
      let outs := xs.enum.map fun p => critiqueSingleE (env.critResp p.1) p.2
      match collectExcept outs with
      | .error _ => think1
      | .ok critiqued =>
        let think2 : ThinkingE := { think1 with state := "synthesizing", hypotheses := .arr critiqued }
        match env.synthResp with
        | .error _ => think2
        | .ok srt =>
          let mb := parseBlueprint srt
          match mb, mb.getField "safeguards" with
          | .null, _ => think2
          | _, none => think2
          | _, some _ => { think2 with masterBlueprint := some mb }
    | _ => think1

/-! ## Verification fan-out with rate-limit recovery (`geminiService.ts`,
`orchestrateDeepThink`, PHASE 2)

The parallel verification fan-out is retried in sequential batches of 3 with
a fixed 1500 ms cooldown when — and only when — the rejection carries a
rate-limit signal (`status === 429` or a `429` / `quota` / `too many`
message pattern); any other rejection is re-raised. -/
/-- `pat` occurs as a substring of `s`. -/
def hasSubstr (s pat : String) : Bool := 2 ≤ (s.splitOn pat).length

/-- The rate-limit detection predicate of the recovery logic. -/
def isRateLimitSignal (e : JsError) : Bool :=
  e.status == some 429 || hasSubstr e.message.toLower "429"
    || hasSubstr e.message.toLower "quota" || hasSubstr e.message.toLower "too many"

/-- Default evaluation result kept when the verification response fails to
parse. -/
def defaultEval : Json :=
  .obj [("confidence", .num (1 / 2 : Rat)), ("reasoning", .str "Evaluation complete.")]

/-- Verification parse site: `JSON.parse(text || "{}")` with an empty
`catch`. -/
def parseEval : RespText → Json
  | .empty => .obj []
  | .malformed _ => defaultEval
  | .json _ j => j

/-- One verification task: completion call, defensive parse, access of
`reasoning` (throws on a `null` parse result), merge of `confidence` and
`reasoning` onto the hypothesis. -/
def verifySingleE (resp : Except JsError RespText) (h : Json) : Except JsError Json :=
  match resp with
  | .error e => .error e
  | .ok rt =>
    match parseEval rt with
    | .null => .error typeErrorJs
    | ev =>
      .ok (jsSetFieldOpt (jsSetFieldOpt h "confidence" (ev.getField "confidence"))
            "reasoning" (ev.getField "reasoning"))

/-- Oracle for the verification phase: the responses of the first, parallel,
attempt and of the batched retry attempt, per hypothesis index. -/
structure VerifyEnv where
  attempt1 : Nat → Except JsError RespText
  attempt2 : Nat → Except JsError RespText

/-- Observable events of the verification phase: per-hypothesis trace-step
status updates, completion calls of each attempt, and cooldown sleeps. -/
inductive VEvent where
  | call1 (i : Nat) : VEvent
  | call2 (i : Nat) : VEvent
  | tracePending (i : Nat) : VEvent
  | traceRunning (i : Nat) : VEvent
  | traceComplete (i : Nat) : VEvent
  | sleep (ms : Nat) : VEvent
deriving Repr, DecidableEq

/-- The batched recovery loop (`for (let i = 0; i < n; i += 3)`): before each
batch every later hypothesis is re-marked `pending`; the batch of (at most) 3
runs concurrently, each task marked `running` and, on success, `complete`;
results are appended in order; a 1500 ms cooldown separates batches; a
rejection inside a batch propagates out of the loop. -/
def batchRecoveryGo (hs : List Json) (env : VerifyEnv) (i : Nat)
    (acc : List Json) (evs : List VEvent) : Except JsError (List Json) × List VEvent :=
  if _hlt : i < hs.length then
    let batch := (hs.enum.drop i).take 3
    let evs := evs ++ ((hs.enum.drop (i + 3)).map fun p => VEvent.tracePending p.1)
    let evs := evs ++ (batch.map fun p => [VEvent.traceRunning p.1, VEvent.call2 p.1]).flatten
    let outs := batch.map fun p => verifySingleE (env.attempt2 p.1) p.2
    let evs := evs ++ (batch.zip outs).filterMap fun q =>
      match q.2 with
      | .ok _ => some (VEvent.traceComplete q.1.1)
      | .error _ => none
    match collectExcept outs with
    | .error e => (.error e, evs)
    | .ok vs =>
      if i + 3 < hs.length then
        batchRecoveryGo hs env (i + 3) (acc ++ vs) (evs ++ [VEvent.sleep 1500])
      else
        batchRecoveryGo hs env (i + 3) (acc ++ vs) evs
  else (.ok acc, evs)
termination_by hs.length - i
decreasing_by all_goals omega

/-- PHASE 2 of the legacy `geminiService` orchestrator: every hypothesis is
marked `running`, the verification fan-out runs in parallel, and a rejection
of the join either triggers the batched recovery (rate-limit signal) or is
re-raised (anything else). -/
def runVerificationPhaseE (hs : List Json) (env : VerifyEnv) :
    Except JsError (List Json) × List VEvent :=
  let evs0 := hs.enum.map fun p => VEvent.traceRunning p.1
  let evs1 := evs0 ++ (hs.enum.map fun p => VEvent.call1 p.1)
  let outs := hs.enum.map fun p => verifySingleE (env.attempt1 p.1) p.2
  let evs2 := evs1 ++ ((hs.enum.zip outs).filterMap fun q =>
    match q.2 with
    | .ok _ => some (VEvent.traceComplete q.1.1)
    | .error _ => none)
  match collectExcept outs with
  | .ok vs => (.ok vs, evs2)
  | .error e =>
    if isRateLimitSignal e then batchRecoveryGo hs env 0 [] evs2
    else (.error e, evs2)

/-! ## Tree state (`types/tot.ts` / `ToTProcessState`)

The tree is an id-keyed association list of nodes plus the insertion-ordered
id list.  Ids are drawn from a deterministic counter (the source uses random
7-character strings; only freshness matters).  The `forceDecomposition` flag
of the legacy state and the timestamps are not claim-relevant and are
omitted. -/
/-- Status lifecycle of a tree node. -/
inductive ToTStatus where
  | pending : ToTStatus
  | decomposing : ToTStatus
  | executing : ToTStatus
  | aggregating : ToTStatus
  | complete : ToTStatus
  | failed : ToTStatus
deriving Repr, DecidableEq

/-- Overall status of a tree run. -/
inductive OverallStatus where
  | running : OverallStatus
  | complete : OverallStatus
  | failed : OverallStatus
deriving Repr, DecidableEq

/-- Result of a completed node: a leaf blueprint, or an aggregated solution
with the child summaries. -/
inductive ToTNodeResultE where
  | leaf (blueprint : Json) : ToTNodeResultE
  | aggregated (solution : Json) (childSummaries : List Json) : ToTNodeResultE
deriving Repr, DecidableEq

/-- One node of the reasoning tree. -/
structure ToTNodeE where
  id : Nat
  parentId : Option Nat
  depth : Nat
  query : String
  title : String
  status : ToTStatus
  children : List Nat
  result : Option ToTNodeResultE
  error : Option String
deriving Repr, DecidableEq

/-- `createNode`. -/
def createNode (id : Nat) (query title : String) (parentId : Option Nat)
    (depth : Nat) : ToTNodeE :=
  { id := id, parentId := parentId, depth := depth, query := query, title := title,
    status := .pending, children := [], result := none, error := none }

/-- The whole tree state. -/
structure ToTStateE where
  rootNodeId : Nat
  nodes : List (Nat × ToTNodeE)
  nodeOrder : List Nat
  maxDepth : Nat
  status : OverallStatus
  finalResult : Option Json
deriving Repr, DecidableEq

/-- Node lookup (`state.nodes[id]`). -/
def getN (s : ToTStateE) (i : Nat) : Option ToTNodeE :=
  (s.nodes.find? fun p => p.1 == i).map Prod.snd

/-- `updateNodeInState`: replace the entry of `i` by `f` applied to it. -/
def updNode (s : ToTStateE) (i : Nat) (f : ToTNodeE → ToTNodeE) : ToTStateE :=
  { s with nodes := s.nodes.map fun p => if p.1 == i then (p.1, f p.2) else p }

/-- Point a node's `children` list at the given ids. -/
def setChildrenOf (kidIds : List Nat) (nd : ToTNodeE) : ToTNodeE :=
  { nd with children := kidIds }

/-- `addChildrenToState`: register the child nodes and point the parent's
`children` list at them. -/
def addChildren (s : ToTStateE) (parentId : Nat) (kids : List ToTNodeE) : ToTStateE :=
  let kidIds := kids.map (·.id)
  { s with
    nodes := (s.nodes.map fun p =>
        if p.1 == parentId then (p.1, setChildrenOf kidIds p.2) else p)
      ++ kids.map (fun k => (k.id, k)),
    nodeOrder := s.nodeOrder ++ kidIds }

/-- `getNodeSolution`: the empty string for a node without a result, the
blueprint text of a leaf, the aggregated solution otherwise.  The value is
dynamic: a leaf blueprint lacking the `blueprint` field yields `undefined`. -/
def getNodeSolutionE : Option ToTNodeResultE → Option Json
  | none => some (.str "")
  | some (.leaf bp) => bp.getField "blueprint"
  | some (.aggregated sol _) => some sol

/-- A tree run in progress: current state, emitted snapshots (in emission
order), and the id counter. -/
structure TreeRunE where
  st : ToTStateE
  snaps : List ToTStateE
  nextId : Nat
deriving Repr, DecidableEq

/-- `onToTUpdate(state)`: append the current state to the snapshot log. -/
def emitT (r : TreeRunE) : TreeRunE := { r with snaps := r.snaps ++ [r.st] }

/-- The `(query, solution)` pairs handed to the aggregation step for the
children of `i`. -/
def childSolutionsOf (s : ToTStateE) (i : Nat) : List (String × Option Json) :=
  match getN s i with
  | some nd => nd.children.map fun c =>
      match getN s c with
      | some ch => (ch.query, getNodeSolutionE ch.result)
      | none => ("", none)
  | none => []

/-! ## The generic tree engine

`runToT` (`tot.backbone.ts`) and `executeToT` (`totOrchestrator.ts`) share
their node lifecycle verbatim; they differ in the decomposition analyzer,
the admissibility guard, the leaf pipeline and the aggregation step.  The
shared lifecycle is embedded once, over a configuration record, and
instantiated twice below.  `Promise.all` over the children is the
left-to-right fold with early exit described in the header. -/
/-- An exception escaping a node's processing: a rejected completion call
(in the backbone's decomposition or aggregation helper), or fuel exhaustion
of the bounded interpreter (the source recursion is unbounded; every claim
is quantified over the fuel). -/
inductive TErr where
  | oracle : TErr
  | fuelOut : TErr
deriving Repr, DecidableEq

/-- Engine configuration: the per-node decomposition analysis, the
admissibility guard, the (total) leaf pipeline, and the aggregation step. -/
structure EngineCfg where
  decompose : Nat → Nat → Except Unit DecompResultE
  admitDec : Nat → DecompResultE → Bool
  leafBlueprint : Nat → String → Json
  aggregate : Nat → List (String × Option Json) → Except Unit (Json × List Json)

/-- One child node per sub-problem, with consecutive fresh ids starting at
`base`, registered at `depth` under the parent. -/
def spawnKids (base pid d : Nat) (sps : List SubProblemE) : List ToTNodeE :=
  sps.enum.map fun p => createNode (base + p.1) p.2.query p.2.title (some pid) d

/-- Set a node's status. -/
def setStatusF (σ : ToTStatus) (nd : ToTNodeE) : ToTNodeE := { nd with status := σ }

/-- Set a node's display title. -/
def setTitleF (t : String) (nd : ToTNodeE) : ToTNodeE := { nd with title := t }

/-- Complete a node with its result. -/
def setResultComplete (res : ToTNodeResultE) (nd : ToTNodeE) : ToTNodeE :=
  { nd with status := ToTStatus.complete, result := some res }

/-- One lifecycle transition: set the node's status and emit a snapshot. -/
def stepStatus (r : TreeRunE) (nodeId : Nat) (σ : ToTStatus) : TreeRunE :=
  emitT { r with st := updNode r.st nodeId (setStatusF σ) }

/-- Spawn the child nodes of an admitted decomposition, retitle the root,
and emit one snapshot (mirroring `addChildrenToState` followed by the title
update and one `onToTUpdate`). -/
def stepSpawn (r : TreeRunE) (nodeId : Nat) (node : ToTNodeE)
    (sps : List SubProblemE) : TreeRunE :=
  let kids := spawnKids r.nextId nodeId (node.depth + 1) sps
  let r2 : TreeRunE := { r with st := addChildren r.st nodeId kids,
                                nextId := r.nextId + kids.length }
  let t := if node.title == "Root Problem" then "Decomposed Problem" else node.title
  emitT { r2 with st := updNode r2.st nodeId (setTitleF t) }

/-- Terminal transition: store the result, mark `complete`, emit. -/
def stepComplete (r : TreeRunE) (nodeId : Nat) (res : ToTNodeResultE) : TreeRunE :=
  emitT { r with st := updNode r.st nodeId (setResultComplete res) }

/-- Process the children one after the other with the given per-node runner,
stopping at the first escaped exception (the `Promise.all` join rejects with
it): the left-to-right model of
`await Promise.all(childNodes.map(child => processNode(child.id)))`. -/
def kidsFoldF (f : Nat → TreeRunE → TreeRunE × Except TErr Unit) :
    List Nat → TreeRunE → TreeRunE × Except TErr Unit
  | [], r => (r, .ok ())
  | c :: cs, r =>
    match f c r with
    | (rr, .ok _) => kidsFoldF f cs rr
    | (rr, .error e) => (rr, .error e)

/-- `processNode`: decomposing → (spawn children, recurse over all of them,
aggregate) | (execute as leaf) → complete, with a snapshot emitted after
every transition.  An exception from the decomposition or aggregation step
propagates to the caller; the leaf pipeline is total (its own handler
absorbs its errors), so the `failed` branch of the source is unreachable
and a leaf always completes.  The recursion is fuel-bounded; running out of
fuel raises `TErr.fuelOut` (the source recursion is bounded by the depth
ceiling of the tree, so any sufficiently large fuel is exact). -/
def processNodeG (cfg : EngineCfg) : Nat → Nat → TreeRunE → TreeRunE × Except TErr Unit
  | 0 => fun _ r => (r, .error .fuelOut)
  | fuel + 1 => fun nodeId r =>
    match getN r.st nodeId with
    | none => (r, .ok ())
    | some node =>
      let r1 := stepStatus r nodeId .decomposing
      match cfg.decompose nodeId node.depth with
      | .error _ => (r1, .error .oracle)
      | .ok dec =>
        if cfg.admitDec node.depth dec then
          let r3 := stepSpawn r1 nodeId node dec.subProblems
          match kidsFoldF (processNodeG cfg fuel)
              ((spawnKids r1.nextId nodeId (node.depth + 1) dec.subProblems).map (·.id)) r3 with
          | (r4, .error e) => (r4, .error e)
          | (r4, .ok _) =>
            let r5 := stepStatus r4 nodeId .aggregating
            match cfg.aggregate nodeId (childSolutionsOf r5.st nodeId) with
            | .error _ => (r5, .error .oracle)
            | .ok (sol, contribs) =>
              (stepComplete r5 nodeId (.aggregated sol contribs), .ok ())
        else
          let r2 := stepStatus r1 nodeId .executing
          (stepComplete r2 nodeId (.leaf (cfg.leafBlueprint nodeId node.query)), .ok ())

/-- The child fold of one `processNode` step. -/
def kidsFold (cfg : EngineCfg) (fuel : Nat) : List Nat → TreeRunE → TreeRunE × Except TErr Unit :=
  kidsFoldF (processNodeG cfg fuel)

/-- Result of a whole tree run: the final prompt and the run record
(final state plus all emitted snapshots). -/
structure TreeResultE where
  prompt : String
  run : TreeRunE
deriving Repr, DecidableEq

/-- The initial root-only state of a session. -/
def initTreeState (query : String) (maxDepth : Nat) : ToTStateE :=
  { rootNodeId := 0, nodes := [(0, createNode 0 query "Root Problem" none 0)],
    nodeOrder := [0], maxDepth := maxDepth, status := .running, finalResult := none }

/-- The run record right after the initial `onToTUpdate(state)` emission. -/
def initTreeRun (query : String) (maxDepth : Nat) : TreeRunE :=
  emitT { st := initTreeState query maxDepth, snaps := [], nextId := 1 }

/-- The shared session wrapper: initial root-only state, one snapshot, the
root processed, then the state marked `complete` (final solution extracted)
or `failed`; the wrappers below build the engine-specific final prompt. -/
def runTreeSession (cfg : EngineCfg) (query : String) (maxDepth fuel : Nat) :
    TreeRunE × Except TErr Unit × Option Json :=
  match processNodeG cfg fuel 0 (initTreeRun query maxDepth) with
  | (r, .ok _) =>
    let finalSolution : Option Json :=
      match getN r.st 0 with
      | some nd =>
        match nd.result with
        | some res => getNodeSolutionE (some res)
        | none => some (.str query)
      | none => some (.str query)
    (emitT { r with st := { r.st with status := .complete, finalResult := finalSolution } },
     .ok (), finalSolution)
  | (r, .error e) =>
    (emitT { r with st := { r.st with status := .failed } }, .error e, none)

/-! ### Instantiation 1: the ToT backbone (`tot.backbone.ts`, `runToT`) -/
/-- Oracle for one backbone tree run, keyed by node id: the decomposition
response, the leaf pipeline's oracles, and the aggregation response. -/
structure BackboneEnv where
  decompResp : Nat → Except Unit RespText
  synthEnv : Nat → SynthEnv
  aggResp : Nat → Except Unit RespText

/-- The leaf blueprint of the backbone:
`thinkingProcess?.masterBlueprint || {blueprint: leafPrompt, ...}` (a stored
blueprint passed the safeguards access, hence is a truthy object). -/
def leafBlueprintOfSynth (sres : SynthResultE) (query : String) : Json :=
  match sres.thinking.masterBlueprint with
  | some mb => mb
  | none => .obj [("blueprint", .str sres.prompt), ("objective", .str query),
                  ("tone", .str "professional"), ("safeguards", .arr [])]

/-- The backbone engine configuration: its own decomposition parser, the
`depth < maxDepth - 1` ceiling inside the admissibility guard, `runSynthesis`
in ToT mode as the leaf pipeline, and its own aggregation parser. -/
def backboneCfg (env : BackboneEnv) (prompts : PromptsE) (maxDepth : Nat) : EngineCfg :=
  { decompose := fun i _ => analyzeDecompositionB (env.decompResp i),
    admitDec := fun depth dec =>
      decide (depth < maxDepth - 1) && dec.shouldDecompose && decide (2 ≤ dec.subProblems.length),
    leafBlueprint := fun i q => leafBlueprintOfSynth (runSynthesisE q prompts (env.synthEnv i) true) q,
    aggregate := fun i _ =>
      (aggregateB (env.aggResp i)).map fun a => (a.aggregatedSolution, a.childContributions) }

/-- `runToT`: the backbone tree engine.  On success the final prompt is
`prompts.final(query, finalSolution)`; if the root's processing threw, the
state is marked `failed` and the prompt degrades to `prompts.final(query)`. -/
def runToTB (env : BackboneEnv) (prompts : PromptsE) (query : String)
    (maxDepth fuel : Nat) : TreeResultE :=
  match runTreeSession (backboneCfg env prompts maxDepth) query maxDepth fuel with
  | (r, .ok _, finalSolution) => { prompt := prompts.final query finalSolution, run := r }
  | (r, .error _, _) => { prompt := prompts.final query none, run := r }

/-! ### Instantiation 2: the legacy orchestrator (`totOrchestrator.ts`,
`executeToT`) -/
/-- Oracle for one legacy tree run, keyed by node id. -/
structure LegacyEnv where
  decompResp : Nat → Except Unit RespText
  dtEnv : Nat → SynthEnv
  aggResp : Nat → Except Unit RespText

/-- The leaf blueprint of the legacy orchestrator:
`finalState.masterBlueprint || {blueprint: "Direct response", ...}`. -/
def legacyLeafBlueprint (think : ThinkingE) (query : String) : Json :=
  match think.masterBlueprint with
  | some mb => mb
  | none => .obj [("blueprint", .str "Direct response"), ("objective", .str query),
                  ("tone", .str "professional"), ("safeguards", .arr [])]

/-- The legacy engine configuration: the decomposer service (total, with its
own `depth ≥ maxDepth` short-circuit), an admissibility guard *without* a
depth ceiling, `orchestrateDeepThink` as the leaf pipeline, and the
aggregator service (total).  The string-typed solutions the aggregator
service receives are the template rendering of the dynamic values. -/
def legacyCfg (env : LegacyEnv) (maxDepth : Nat) : EngineCfg :=
  { decompose := fun i d => .ok (decomposerAnalyze d maxDepth (env.decompResp i)).1,
    admitDec := fun _ dec => dec.shouldDecompose && decide (2 ≤ dec.subProblems.length),
    leafBlueprint := fun i q => legacyLeafBlueprint (orchestrateDeepThinkE (env.dtEnv i)) q,
    aggregate := fun i sols =>
      .ok (let a := (aggregateService
              (sols.map fun p => { query := p.1, solution := dispJs p.2 })
              (env.aggResp i)).1
           (Json.str a.aggregatedSolution, a.childContributions.map Json.str)) }

/-- The fixed final-generation template of the legacy orchestrator. -/
def legacyFinalPrompt (finalSolution : Option Json) : String :=
  "\nBased on the following comprehensive analysis, provide a well-structured response:\n\n"
    ++ dispJs finalSolution
    ++ "\n\nImportant: Format your response in clear, readable markdown.\n"

/-- `executeToT`: the legacy tree engine.  On an escaped exception the
prompt degrades to the original query (here unreachable: every oracle of
this configuration is absorbed by its component, so only fuel exhaustion
takes that branch). -/
def executeToTO (env : LegacyEnv) (query : String) (maxDepth fuel : Nat) : TreeResultE :=
  match runTreeSession (legacyCfg env maxDepth) query maxDepth fuel with
  | (r, .ok _, finalSolution) => { prompt := legacyFinalPrompt finalSolution, run := r }
  | (r, .error _, _) => { prompt := query, run := r }

/-! ## Structural lemmas about the tree state -/
/-- The id domain of a tree state. -/
def keysOf (s : ToTStateE) : List Nat := s.nodes.map Prod.fst

/-! ## Invariants of the tree engines

`SnapInv kb` is the claim-relevant invariant of one snapshot, parametrized
by the engine's bound `kb` on the depth of a node that acquires children
(`depth < maxDepth - 1` for the backbone, `depth < maxDepth` for the legacy
orchestrator): no node is `failed`; a node with children has at least 2 of
them and satisfies the depth bound; a `complete` node has only `complete`
children.  `AuxInv` carries the bookkeeping that makes the induction go
through: key uniqueness, the id bound of the fresh-id counter, closedness of
child references, and uniqueness of the referencing parent. -/
/-- Claim-relevant invariant of one snapshot. -/
def SnapInv (kb : Nat → Prop) (s : ToTStateE) : Prop :=
  ∀ i nd, getN s i = some nd →
    nd.status ≠ ToTStatus.failed ∧
    (nd.children ≠ [] → 2 ≤ nd.children.length ∧ kb nd.depth) ∧
    (nd.status = ToTStatus.complete →
      ∀ c ∈ nd.children, ∃ q, getN s c = some q ∧ q.status = ToTStatus.complete)

/-- Structural bookkeeping invariant of a run. -/
def AuxInv (s : ToTStateE) (nextId : Nat) : Prop :=
  (keysOf s).Nodup ∧
  (∀ k ∈ keysOf s, k < nextId) ∧
  (∀ i nd, getN s i = some nd → ∀ c ∈ nd.children, c ∈ keysOf s) ∧
  (∀ i nd j nd2, getN s i = some nd → getN s j = some nd2 →
    ∀ c, c ∈ nd.children → c ∈ nd2.children → i = j)

/-- Full invariant of a run record: bookkeeping, the current state's
invariant, and the invariant of every snapshot emitted so far. -/
def RunInv (kb : Nat → Prop) (r : TreeRunE) : Prop :=
  AuxInv r.st r.nextId ∧ SnapInv kb r.st ∧ ∀ s ∈ r.snaps, SnapInv kb s

/-- Constraint an engine configuration puts on an admitted decomposition:
its sub-problem floor and its depth bound `kb`. -/
def CfgOk (cfg : EngineCfg) (kb : Nat → Prop) : Prop :=
  ∀ i d dec, cfg.decompose i d = .ok dec → cfg.admitDec d dec = true →
    kb d ∧ 2 ≤ dec.subProblems.length

/-- Precondition of `processNodeG`: the node exists, pending, childless. -/
def NodePre (r : TreeRunE) (nodeId : Nat) : Prop :=
  ∃ nd, getN r.st nodeId = some nd ∧ nd.status = ToTStatus.pending ∧ nd.children = []

/-- Postcondition of `processNodeG`: invariants hold (current state and
every emitted snapshot), scalar state fields are untouched, ids only grow,
every node other than the processed one keeps its entry, child references
are either inherited or fresh, and a normal return leaves the node
`complete`. -/
def NodePost (kb : Nat → Prop) (r : TreeRunE) (nodeId : Nat)
    (out : TreeRunE × Except TErr Unit) : Prop :=
  RunInv kb out.1 ∧
  out.1.st.maxDepth = r.st.maxDepth ∧
  out.1.st.status = r.st.status ∧
  r.nextId ≤ out.1.nextId ∧
  (∀ k ∈ keysOf r.st, k ∈ keysOf out.1.st) ∧
  (∀ k ∈ keysOf out.1.st, k ∈ keysOf r.st ∨ r.nextId ≤ k) ∧
  (∀ k ∈ keysOf r.st, k ≠ nodeId → getN out.1.st k = getN r.st k) ∧
  (∀ j p, getN out.1.st j = some p → ∀ c ∈ p.children,
    (∃ q, getN r.st j = some q ∧ c ∈ q.children) ∨ r.nextId ≤ c) ∧
  (out.2 = .ok () → ∃ nd, getN out.1.st nodeId = some nd ∧ nd.status = ToTStatus.complete)

/-- Precondition of `kidsFold`: fresh-bounded, distinct, pending ids. -/
def KidsPre (r : TreeRunE) (ids : List Nat) : Prop :=
  ids.Nodup ∧ (∀ c ∈ ids, c < r.nextId) ∧
  (∀ c ∈ ids, ∃ nd, getN r.st c = some nd ∧ nd.status = ToTStatus.pending ∧ nd.children = [])

/-- Postcondition of `kidsFold`, analogous to `NodePost`; a normal join
leaves every child `complete`. -/
def KidsPost (kb : Nat → Prop) (r : TreeRunE) (ids : List Nat)
    (out : TreeRunE × Except TErr Unit) : Prop :=
  RunInv kb out.1 ∧
  out.1.st.maxDepth = r.st.maxDepth ∧
  out.1.st.status = r.st.status ∧
  r.nextId ≤ out.1.nextId ∧
  (∀ k ∈ keysOf r.st, k ∈ keysOf out.1.st) ∧
  (∀ k ∈ keysOf out.1.st, k ∈ keysOf r.st ∨ r.nextId ≤ k) ∧
  (∀ k ∈ keysOf r.st, k ∉ ids → getN out.1.st k = getN r.st k) ∧
  (∀ j p, getN out.1.st j = some p → ∀ c ∈ p.children,
    (∃ q, getN r.st j = some q ∧ c ∈ q.children) ∨ r.nextId ≤ c) ∧
  (out.2 = .ok () → ∀ c ∈ ids, ∃ nd, getN out.1.st c = some nd ∧ nd.status = ToTStatus.complete)

/-! ## Concrete scenario data -/
/-- A prompt set whose `final` records whether a blueprint was supplied. -/
def promptsId : PromptsE :=
  { final := fun q mb => match mb with | some _ => q ++ "#B" | none => q ++ "#F" }

/-- A model sub-problem entry with all three string fields. -/
def spJson (n : String) : Json :=
  .obj [("id", .str n), ("title", .str ("T" ++ n)), ("query", .str ("Q" ++ n))]

/-- A decomposition response: decompose into two sub-problems. -/
def decompTrueJson : Json :=
  .obj [("shouldDecompose", .bool true), ("subProblems", .arr [spJson "a", spJson "b"])]

/-- A decomposition response with a true decision but a single sub-problem. -/
def decompOneSubJson : Json :=
  .obj [("shouldDecompose", .bool true), ("subProblems", .arr [spJson "a"])]

/-- A synthesis-pipeline oracle whose every call rejects. -/
def synthEnvErr : SynthEnv :=
  { divResp := .error { status := none, message := "down" },
    critResp := fun _ => .error { status := none, message := "down" },
    synthResp := .error { status := none, message := "down" } }

/-- Backbone oracle: the root decomposes into two leaves, aggregation parses
to the empty object (so its solution collapses). -/
def envB1 : BackboneEnv :=
  { decompResp := fun i => if i == 0 then .ok (.json "d" decompTrueJson) else .ok .empty,
    synthEnv := fun _ => synthEnvErr,
    aggResp := fun _ => .ok .empty }

/-- Legacy oracle of the same shape. -/
def envL1 : LegacyEnv :=
  { decompResp := fun i => if i == 0 then .ok (.json "d" decompTrueJson) else .ok .empty,
    dtEnv := fun _ => synthEnvErr,
    aggResp := fun _ => .ok .empty }

/-- Backbone oracle whose aggregation call rejects. -/
def envC6e : BackboneEnv :=
  { decompResp := fun i => if i == 0 then .ok (.json "d" decompTrueJson) else .ok .empty,
    synthEnv := fun _ => synthEnvErr,
    aggResp := fun _ => .error () }

/-- Backbone oracle whose aggregation response parses but lacks the
`aggregatedSolution` field. -/
def envC8e : BackboneEnv :=
  { decompResp := fun i => if i == 0 then .ok (.json "d" decompTrueJson) else .ok .empty,
    synthEnv := fun _ => synthEnvErr,
    aggResp := fun _ => .ok (.json "noagg" (.obj [])) }

/-- A single divergence strategy. -/
def strategyJson : Json :=
  .obj [("id", .str "s1"), ("title", .str "T"), ("strategy", .str "S"),
        ("assumption", .str "A")]

/-- Synthesis oracle: one strategy, empty critique text, empty synthesis
text. -/
def envC5e : SynthEnv :=
  { divResp := .ok (.json "arr" (.arr [strategyJson])),
    critResp := fun _ => .ok .empty,
    synthResp := .ok .empty }

/-- A rate-limit rejection. -/
def rlErr : JsError := { status := some 429, message := "Too Many Requests" }

/-- Synthesis oracle whose critique calls reject with a rate-limit signal. -/
def envC7e : SynthEnv :=
  { divResp := .ok (.json "arr" (.arr [strategyJson])),
    critResp := fun _ => .error rlErr,
    synthResp := .ok .empty }

/-- Hypotheses of the C7 witness scenario. -/
def hsW : List Json := [.str "h0", .str "h1", .str "h2", .str "h3", .str "h4"]

/-- Verification oracle of the C7 witness scenario: the parallel attempt
rejects with a rate-limit signal, every batched retry succeeds. -/
def vEnvW : VerifyEnv :=
  { attempt1 := fun _ => .error rlErr,
    attempt2 := fun _ => .ok .empty }

/-- The final root node of the C1/C2 witness run. -/
def ndB1root : ToTNodeE :=
  { id := 0, parentId := none, depth := 0, query := "Q", title := "Decomposed Problem",
    status := .complete, children := [1, 2],
    result := some (.aggregated (.str "") []), error := none }

/-- The stuck root node of the C6 witness run. -/
def ndC6root : ToTNodeE :=
  { id := 0, parentId := none, depth := 0, query := "Q", title := "Decomposed Problem",
    status := .aggregating, children := [1, 2], result := none, error := none }

theorem kidsFold_nil (cfg : EngineCfg) (fuel : Nat) (r : TreeRunE) :
    kidsFold cfg fuel [] r = (r, .ok ()) := rfl

theorem kidsFold_cons (cfg : EngineCfg) (fuel : Nat) (c : Nat) (cs : List Nat) (r : TreeRunE) :
    kidsFold cfg fuel (c :: cs) r =
      match processNodeG cfg fuel c r with
      | (rr, .ok _) => kidsFold cfg fuel cs rr
      | (rr, .error e) => (rr, .error e) := rfl

theorem kidsFoldF_eq (cfg : EngineCfg) (fuel : Nat) (ids : List Nat) (r : TreeRunE) :
    kidsFoldF (processNodeG cfg fuel) ids r = kidsFold cfg fuel ids r := rfl

theorem keysOf_updNode (s : ToTStateE) (i : Nat) (f : ToTNodeE → ToTNodeE) :
    keysOf (updNode s i f) = keysOf s := by
  unfold keysOf updNode
  simp only [List.map_map]
  apply List.map_congr_left
  intro p _
  by_cases h : p.1 = i <;> simp [h]

theorem find?_map_updEntry (l : List (Nat × ToTNodeE)) (i j : Nat) (f : ToTNodeE → ToTNodeE) :
    (l.map fun p => if p.1 == i then (p.1, f p.2) else p).find? (fun p => p.1 == j) =
      if j = i then (l.find? (fun p => p.1 == j)).map (fun p => (p.1, f p.2))
      else l.find? (fun p => p.1 == j) := by
  induction l with
  | nil => by_cases h : j = i <;> simp [h]
  | cons p rest ih =>
    have hkey : ((if p.1 == i then (p.1, f p.2) else p) : Nat × ToTNodeE).1 = p.1 := by
      by_cases h : p.1 = i <;> simp [h]
    by_cases hpj : p.1 = j
    · have hb : (((if p.1 == i then (p.1, f p.2) else p) : Nat × ToTNodeE).1 == j) = true := by
        rw [hkey]; exact beq_iff_eq.mpr hpj
      have hb2 : (p.1 == j) = true := beq_iff_eq.mpr hpj
      rw [List.map_cons, List.find?_cons, List.find?_cons]
      simp only [hb, hb2]
      by_cases hji : j = i
      · have hpi : (p.1 == i) = true := by rw [hpj, hji]; exact beq_self_eq_true i
        simp only [if_pos hji, hpi, if_true, Option.map_some]
        rfl
      · have hpi : ¬(p.1 = i) := by rw [hpj]; exact hji
        simp only [if_neg hji, beq_eq_false_iff_ne.mpr hpi, Bool.false_eq_true, if_false]
    · have hb : (((if p.1 == i then (p.1, f p.2) else p) : Nat × ToTNodeE).1 == j) = false := by
        rw [hkey]; exact beq_eq_false_iff_ne.mpr hpj
      have hb2 : (p.1 == j) = false := beq_eq_false_iff_ne.mpr hpj
      rw [List.map_cons, List.find?_cons, List.find?_cons]
      simp only [hb, hb2, ih]

theorem getN_updNode (s : ToTStateE) (i : Nat) (f : ToTNodeE → ToTNodeE) (j : Nat) :
    getN (updNode s i f) j = if j = i then (getN s j).map f else getN s j := by
  unfold getN updNode
  simp only [find?_map_updEntry]
  by_cases h : j = i
  · subst h
    cases hf : List.find? (fun p => p.1 == j) s.nodes <;> simp [hf]
  · simp [h]

theorem updNode_fields (s : ToTStateE) (i : Nat) (f : ToTNodeE → ToTNodeE) :
    (updNode s i f).maxDepth = s.maxDepth ∧ (updNode s i f).rootNodeId = s.rootNodeId ∧
    (updNode s i f).status = s.status ∧ (updNode s i f).finalResult = s.finalResult := by
  unfold updNode; exact ⟨rfl, rfl, rfl, rfl⟩

theorem keysOf_addChildren (s : ToTStateE) (p : Nat) (kids : List ToTNodeE) :
    keysOf (addChildren s p kids) = keysOf s ++ kids.map (·.id) := by
  unfold keysOf addChildren
  simp only [List.map_append, List.map_map]
  congr 1
  apply List.map_congr_left
  intro q _
  by_cases h : q.1 = p <;> simp [h]

theorem addChildren_fields (s : ToTStateE) (p : Nat) (kids : List ToTNodeE) :
    (addChildren s p kids).maxDepth = s.maxDepth ∧
    (addChildren s p kids).rootNodeId = s.rootNodeId ∧
    (addChildren s p kids).status = s.status ∧
    (addChildren s p kids).finalResult = s.finalResult := by
  unfold addChildren; exact ⟨rfl, rfl, rfl, rfl⟩

theorem getN_addChildren_notNew (s : ToTStateE) (p : Nat) (kids : List ToTNodeE)
    (j : Nat) (hnn : j ∉ kids.map (·.id)) :
    getN (addChildren s p kids) j =
      if j = p then (getN s j).map (setChildrenOf (kids.map (·.id)))
      else getN s j := by
  unfold getN addChildren
  have hnew : (kids.map (fun k => (k.id, k))).find? (fun q => q.1 == j) = none := by
    rw [List.find?_eq_none]
    intro x hx
    rcases List.mem_map.mp hx with ⟨k, hk, rfl⟩
    simp only [beq_iff_eq]
    intro hkj
    exact hnn (List.mem_map.mpr ⟨k, hk, hkj⟩)
  rw [List.find?_append, find?_map_updEntry, hnew]
  by_cases h : j = p
  · subst h
    cases hf : List.find? (fun q => q.1 == j) s.nodes <;> simp [hf, Option.or]
  · simp only [if_neg h]
    cases hf : List.find? (fun q => q.1 == j) s.nodes <;> simp [hf, Option.or, h]

theorem getN_addChildren_new (s : ToTStateE) (p : Nat) (kids : List ToTNodeE)
    (j : Nat) (hnew : j ∉ keysOf s) :
    getN (addChildren s p kids) j = kids.find? (fun k => k.id == j) := by
  unfold getN addChildren
  have hold : List.find? (fun q => q.1 == j) s.nodes = none := by
    rw [List.find?_eq_none]
    intro x hx
    simp only [beq_iff_eq]
    intro hxj
    exact hnew (by unfold keysOf; exact List.mem_map.mpr ⟨x, hx, hxj⟩)
  rw [List.find?_append, find?_map_updEntry, hold]
  simp only [Option.map_none, ite_self, Option.none_or, List.find?_map]
  cases hf : kids.find? ((fun q => q.1 == j) ∘ fun k => (k.id, k)) with
  | none =>
    have h2 : kids.find? (fun k => k.id == j) = none := by
      rw [List.find?_eq_none] at hf ⊢
      intro x hx
      exact hf x hx
    simp [h2]
  | some k =>
    have h2 : kids.find? (fun k => k.id == j) = some k := hf
    simp [h2]

theorem getN_isSome_iff (s : ToTStateE) (i : Nat) :
    (getN s i).isSome ↔ i ∈ keysOf s := by
  unfold getN keysOf
  rw [show ∀ o : Option (Nat × ToTNodeE), (o.map Prod.snd).isSome = o.isSome by
    intro o; cases o <;> rfl]
  rw [List.find?_isSome]
  constructor
  · rintro ⟨x, hx, hpx⟩
    exact List.mem_map.mpr ⟨x, hx, (beq_iff_eq.mp hpx).symm ▸ rfl⟩
  · intro h
    rcases List.mem_map.mp h with ⟨x, hx, hxi⟩
    exact ⟨x, hx, beq_iff_eq.mpr hxi⟩

theorem getN_mem_keys {s : ToTStateE} {i : Nat} {nd : ToTNodeE}
    (h : getN s i = some nd) : i ∈ keysOf s :=
  (getN_isSome_iff s i).mp (by rw [h]; rfl)

theorem getN_none_of_not_mem {s : ToTStateE} {i : Nat}
    (h : i ∉ keysOf s) : getN s i = none := by
  cases hf : getN s i with
  | none => rfl
  | some nd => exact absurd (getN_mem_keys hf) h

theorem SnapInv_updNode_mid (kb : Nat → Prop) {s : ToTStateE} {i : Nat}
    {f : ToTNodeE → ToTNodeE}
    (hInv : SnapInv kb s)
    (hch : ∀ nd, (f nd).children = nd.children)
    (hdep : ∀ nd, (f nd).depth = nd.depth)
    (hnf : ∀ nd, (f nd).status ≠ ToTStatus.failed)
    (hnc : ∀ nd, (f nd).status ≠ ToTStatus.complete)
    (href : ∀ j p, getN s j = some p → p.status = ToTStatus.complete → i ∉ p.children) :
    SnapInv kb (updNode s i f) := by
  intro j nd hj
  rw [getN_updNode] at hj
  by_cases hji : j = i
  · rw [if_pos hji] at hj
    rcases Option.map_eq_some'.mp hj with ⟨nd0, hnd0, rfl⟩
    refine ⟨hnf nd0, ?_, ?_⟩
    · rw [hch, hdep]
      exact ((hInv j nd0 (hji ▸ hnd0)).2.1)
    · intro hc
      exact absurd hc (hnc nd0)
  · rw [if_neg hji] at hj
    rcases hInv j nd hj with ⟨h1, h2, h3⟩
    refine ⟨h1, h2, ?_⟩
    intro hcomp c hc
    have hci : c ≠ i := by
      intro hci
      exact (href j nd hj hcomp) (hci ▸ hc)
    rcases h3 hcomp c hc with ⟨q, hq, hqs⟩
    refine ⟨q, ?_, hqs⟩
    rw [getN_updNode, if_neg hci]
    exact hq

theorem SnapInv_updNode_statusKeep (kb : Nat → Prop) {s : ToTStateE} {i : Nat}
    {f : ToTNodeE → ToTNodeE}
    (hInv : SnapInv kb s)
    (hch : ∀ nd, (f nd).children = nd.children)
    (hdep : ∀ nd, (f nd).depth = nd.depth)
    (hst : ∀ nd, (f nd).status = nd.status) :
    SnapInv kb (updNode s i f) := by
  intro j nd hj
  rw [getN_updNode] at hj
  by_cases hji : j = i
  · rw [if_pos hji] at hj
    rcases Option.map_eq_some'.mp hj with ⟨nd0, hnd0, rfl⟩
    rcases hInv j nd0 hnd0 with ⟨h1, h2, h3⟩
    refine ⟨by rw [hst]; exact h1, by rw [hch, hdep]; exact h2, ?_⟩
    intro hcomp c hc
    rw [hst] at hcomp
    rw [hch] at hc
    rcases h3 hcomp c hc with ⟨q, hq, hqs⟩
    refine ⟨if c = i then f q else q, ?_, ?_⟩
    · rw [getN_updNode]
      by_cases hci : c = i
      · rw [if_pos hci, if_pos hci, hq]
        rfl
      · rw [if_neg hci, if_neg hci]
        exact hq
    · by_cases hci : c = i
      · rw [if_pos hci, hst]
        exact hqs
      · rw [if_neg hci]
        exact hqs
  · rw [if_neg hji] at hj
    rcases hInv j nd hj with ⟨h1, h2, h3⟩
    refine ⟨h1, h2, ?_⟩
    intro hcomp c hc
    rcases h3 hcomp c hc with ⟨q, hq, hqs⟩
    refine ⟨if c = i then f q else q, ?_, ?_⟩
    · rw [getN_updNode]
      by_cases hci : c = i
      · rw [if_pos hci, if_pos hci, hq]
        rfl
      · rw [if_neg hci, if_neg hci]
        exact hq
    · by_cases hci : c = i
      · rw [if_pos hci, hst]
        exact hqs
      · rw [if_neg hci]
        exact hqs

theorem SnapInv_updNode_complete (kb : Nat → Prop) {s : ToTStateE} {i : Nat}
    {f : ToTNodeE → ToTNodeE}
    (hInv : SnapInv kb s)
    (hch : ∀ nd, (f nd).children = nd.children)
    (hdep : ∀ nd, (f nd).depth = nd.depth)
    (hstat : ∀ nd, (f nd).status = ToTStatus.complete)
    (hkids : ∀ nd, getN s i = some nd → ∀ c ∈ nd.children,
      ∃ q, getN s c = some q ∧ q.status = ToTStatus.complete) :
    SnapInv kb (updNode s i f) := by
  intro j nd hj
  rw [getN_updNode] at hj
  by_cases hji : j = i
  · rw [if_pos hji] at hj
    rcases Option.map_eq_some'.mp hj with ⟨nd0, hnd0, rfl⟩
    have hnd0i : getN s i = some nd0 := hji ▸ hnd0
    rcases hInv j nd0 hnd0 with ⟨_, h2, _⟩
    refine ⟨by rw [hstat]; simp, by rw [hch, hdep]; exact h2, ?_⟩
    intro _ c hc
    rw [hch] at hc
    rcases hkids nd0 hnd0i c hc with ⟨q, hq, hqs⟩
    refine ⟨if c = i then f q else q, ?_, ?_⟩
    · rw [getN_updNode]
      by_cases hci : c = i
      · rw [if_pos hci, if_pos hci, hq]
        rfl
      · rw [if_neg hci, if_neg hci]
        exact hq
    · by_cases hci : c = i
      · rw [if_pos hci, hstat]
      · rw [if_neg hci]
        exact hqs
  · rw [if_neg hji] at hj
    rcases hInv j nd hj with ⟨h1, h2, h3⟩
    refine ⟨h1, h2, ?_⟩
    intro hcomp c hc
    rcases h3 hcomp c hc with ⟨q, hq, hqs⟩
    refine ⟨if c = i then f q else q, ?_, ?_⟩
    · rw [getN_updNode]
      by_cases hci : c = i
      · rw [if_pos hci, if_pos hci, hq]
        rfl
      · rw [if_neg hci, if_neg hci]
        exact hq
    · by_cases hci : c = i
      · rw [if_pos hci, hstat]
      · rw [if_neg hci]
        exact hqs

theorem AuxInv_updNode {s : ToTStateE} {nextId : Nat} {i : Nat}
    {f : ToTNodeE → ToTNodeE}
    (hch : ∀ nd, (f nd).children = nd.children)
    (h : AuxInv s nextId) : AuxInv (updNode s i f) nextId := by
  rcases h with ⟨h1, h2, h3, h4⟩
  refine ⟨by rw [keysOf_updNode]; exact h1, by rw [keysOf_updNode]; exact h2, ?_, ?_⟩
  · intro j nd hj c hc
    rw [keysOf_updNode]
    rw [getN_updNode] at hj
    by_cases hji : j = i
    · rw [if_pos hji] at hj
      rcases Option.map_eq_some'.mp hj with ⟨nd0, hnd0, rfl⟩
      rw [hch] at hc
      exact h3 j nd0 hnd0 c hc
    · rw [if_neg hji] at hj
      exact h3 j nd hj c hc
  · intro j nd j2 nd2 hj hj2 c hc hc2
    rw [getN_updNode] at hj hj2
    by_cases hji : j = i <;> by_cases hj2i : j2 = i
    · rw [hji, hj2i]
    · rw [if_pos hji] at hj
      rw [if_neg hj2i] at hj2
      rcases Option.map_eq_some'.mp hj with ⟨nd0, hnd0, rfl⟩
      rw [hch] at hc
      exact h4 j nd0 j2 nd2 hnd0 hj2 c hc hc2
    · rw [if_neg hji] at hj
      rw [if_pos hj2i] at hj2
      rcases Option.map_eq_some'.mp hj2 with ⟨nd0, hnd0, rfl⟩
      rw [hch] at hc2
      exact h4 j nd j2 nd0 hj hnd0 c hc hc2
    · rw [if_neg hji] at hj
      rw [if_neg hj2i] at hj2
      exact h4 j nd j2 nd2 hj hj2 c hc hc2

theorem spawnKids_length (base pid d : Nat) (sps : List SubProblemE) :
    (spawnKids base pid d sps).length = sps.length := by
  unfold spawnKids
  rw [List.length_map, List.enum_length]

theorem spawnKids_ids (base pid d : Nat) (sps : List SubProblemE) :
    (spawnKids base pid d sps).map (·.id) = List.range' base sps.length := by
  unfold spawnKids
  rw [List.map_map]
  have h1 : ((fun x => x.id) ∘ fun p : Nat × SubProblemE =>
      createNode (base + p.1) p.2.query p.2.title (some pid) d) =
      (fun p : Nat × SubProblemE => base + p.1) := rfl
  rw [h1]
  have h2 : (fun p : Nat × SubProblemE => base + p.1) =
      ((fun n => base + n) ∘ Prod.fst) := rfl
  rw [h2, ← List.map_map, List.enum_map_fst, List.range'_eq_map_range]

theorem spawnKids_mem {base pid d : Nat} {sps : List SubProblemE} {k : ToTNodeE}
    (hk : k ∈ spawnKids base pid d sps) :
    k.status = ToTStatus.pending ∧ k.children = [] ∧ k.depth = d ∧
      base ≤ k.id ∧ k.id < base + sps.length := by
  unfold spawnKids at hk
  rcases List.mem_map.mp hk with ⟨p, hp, rfl⟩
  have hfst : p.1 < sps.length := by
    have hmem : p.1 ∈ sps.enum.map Prod.fst := List.mem_map.mpr ⟨p, hp, rfl⟩
    rw [List.enum_map_fst] at hmem
    exact List.mem_range.mp hmem
  refine ⟨rfl, rfl, rfl, ?_, ?_⟩ <;> simp only [createNode] <;> omega

theorem find?_kids_self {kids : List ToTNodeE} (hnodup : (kids.map (·.id)).Nodup)
    {k : ToTNodeE} (hk : k ∈ kids) : kids.find? (fun x => x.id == k.id) = some k := by
  induction kids with
  | nil => cases hk
  | cons a rest ih =>
    rw [List.map_cons, List.nodup_cons] at hnodup
    rcases List.mem_cons.mp hk with rfl | hk2
    · rw [List.find?_cons]
      simp
    · have hne : (a.id == k.id) = false := by
        rw [beq_eq_false_iff_ne]
        intro he
        exact hnodup.1 (he ▸ List.mem_map.mpr ⟨k, hk2, rfl⟩)
      rw [List.find?_cons, hne]
      exact ih hnodup.2 hk2

/-- Combined specification of the child-spawning step: invariants are
preserved, the parent now points at the fresh children, the children are
registered pending, and every other node is untouched. -/
theorem addChildren_spec (kb : Nat → Prop) {s : ToTStateE} {nextId i d : Nat}
    {nd : ToTNodeE} {w : List SubProblemE}
    (hAux : AuxInv s nextId) (hSnap : SnapInv kb s)
    (hnd : getN s i = some nd)
    (hndst : nd.status = ToTStatus.decomposing)
    (hkb : kb nd.depth) (hlen : 2 ≤ w.length) :
    letI kids := spawnKids nextId i d w
    letI s2 := addChildren s i kids
    AuxInv s2 (nextId + kids.length) ∧ SnapInv kb s2 ∧
      getN s2 i = some (setChildrenOf (kids.map (·.id)) nd) ∧
      (∀ k ∈ kids, getN s2 k.id = some k) ∧
      (∀ j, j ≠ i → j ∈ keysOf s → getN s2 j = getN s j) ∧
      keysOf s2 = keysOf s ++ kids.map (·.id) := by
  set kids := spawnKids nextId i d w with hkids_def
  set s2 := addChildren s i kids with hs2_def
  rcases hAux with ⟨hnodup, hbound, hrefs, huniq⟩
  have hids : kids.map (·.id) = List.range' nextId w.length := spawnKids_ids nextId i d w
  have hklen : kids.length = w.length := spawnKids_length nextId i d w
  have hidnodup : (kids.map (·.id)).Nodup := by rw [hids]; exact List.nodup_range' nextId w.length
  have hfreshId : ∀ m ∈ kids.map (·.id), nextId ≤ m ∧ m < nextId + w.length := by
    intro m hm
    rw [hids] at hm
    exact List.mem_range'_1.mp hm
  have hfreshKeys : ∀ m ∈ kids.map (·.id), m ∉ keysOf s := by
    intro m hm hmk
    have h1 := hbound m hmk
    have h2 := (hfreshId m hm).1
    omega
  have hkeys : keysOf s2 = keysOf s ++ kids.map (·.id) := keysOf_addChildren s i kids
  have hiKey : i ∈ keysOf s := getN_mem_keys hnd
  have hiNotNew : i ∉ kids.map (·.id) := by
    intro hin
    exact absurd (hbound i hiKey) (by have := (hfreshId i hin).1; omega)
  have hC3 : getN s2 i = some (setChildrenOf (kids.map (·.id)) nd) := by
    rw [hs2_def, getN_addChildren_notNew s i kids i hiNotNew, if_pos rfl, hnd]
    rfl
  have hC4 : ∀ k ∈ kids, getN s2 k.id = some k := by
    intro k hk
    have hkid : k.id ∈ kids.map (·.id) := List.mem_map.mpr ⟨k, hk, rfl⟩
    rw [hs2_def, getN_addChildren_new s i kids k.id (hfreshKeys k.id hkid)]
    exact find?_kids_self hidnodup hk
  have hC5 : ∀ j, j ≠ i → j ∈ keysOf s → getN s2 j = getN s j := by
    intro j hji hjk
    have hnotnew : j ∉ kids.map (·.id) := by
      intro hin
      exact absurd (hbound j hjk) (by have := (hfreshId j hin).1; omega)
    rw [hs2_def, getN_addChildren_notNew s i kids j hnotnew, if_neg hji]
  -- a complete node never references i (its entry is decomposing)
  have hrefi : ∀ j p, getN s j = some p → p.status = ToTStatus.complete → i ∉ p.children := by
    intro j p hj hcomp hin
    rcases (hSnap j p hj).2.2 hcomp i hin with ⟨q, hq, hqs⟩
    rw [hnd] at hq
    cases hq
    rw [hndst] at hqs
    cases hqs
  -- membership in the new state splits into the three node classes
  have hcases : ∀ j nd2, getN s2 j = some nd2 →
      (j = i ∧ nd2 = setChildrenOf (kids.map (·.id)) nd) ∨
      (j ∈ keysOf s ∧ j ≠ i ∧ getN s j = some nd2) ∨
      (nd2 ∈ kids ∧ nd2.id = j) := by
    intro j nd2 hj
    by_cases hjk : j ∈ keysOf s
    · by_cases hji : j = i
      · subst hji
        rw [hC3] at hj
        exact Or.inl ⟨rfl, by cases hj; rfl⟩
      · rw [hC5 j hji hjk] at hj
        exact Or.inr (Or.inl ⟨hjk, hji, hj⟩)
    · right; right
      rw [hs2_def, getN_addChildren_new s i kids j hjk] at hj
      have hpred := List.find?_some (p := fun k : ToTNodeE => k.id == j) hj
      exact ⟨List.mem_of_find?_eq_some hj, beq_iff_eq.mp hpred⟩
  refine ⟨⟨?_, ?_, ?_, ?_⟩, ?_, hC3, hC4, hC5, hkeys⟩
  · -- nodup keys
    rw [hkeys]
    refine hnodup.append hidnodup ?_
    intro a ha hb
    exact absurd (hbound a ha) (by have := (hfreshId a hb).1; omega)
  · -- key bound
    rw [hkeys]
    intro k hk
    rcases List.mem_append.mp hk with hk1 | hk2
    · have := hbound k hk1; omega
    · have := (hfreshId k hk2).2; omega
  · -- child references closed
    intro j nd2 hj c hc
    rw [hkeys]
    rcases hcases j nd2 hj with ⟨rfl, rfl⟩ | ⟨hjk, hji, hold⟩ | ⟨hkid, rfl⟩
    · refine List.mem_append.mpr (Or.inr ?_)
      exact hc
    · exact List.mem_append.mpr (Or.inl (hrefs j nd2 hold c hc))
    · rcases spawnKids_mem hkid with ⟨_, hch0, _, _, _⟩
      rw [hch0] at hc
      cases hc
  · -- unique referencing parent
    intro j nd2 j2 nd3 hj hj2 c hc hc2
    rcases hcases j nd2 hj with ⟨rfl, rfl⟩ | ⟨hjk, hji, hold⟩ | ⟨hkid, rfl⟩
    · rcases hcases j2 nd3 hj2 with ⟨he, _⟩ | ⟨hjk2, hji2, hold2⟩ | ⟨hkid2, rfl⟩
      · rw [he]
      · have hcNew : c ∈ kids.map (·.id) := hc
        have hcOld : c ∈ keysOf s := hrefs j2 nd3 hold2 c hc2
        exact absurd hcOld (hfreshKeys c hcNew)
      · rcases spawnKids_mem hkid2 with ⟨_, hch0, _, _, _⟩
        rw [hch0] at hc2
        cases hc2
    · rcases hcases j2 nd3 hj2 with ⟨rfl, rfl⟩ | ⟨hjk2, hji2, hold2⟩ | ⟨hkid2, rfl⟩
      · have hcNew : c ∈ kids.map (·.id) := hc2
        have hcOld : c ∈ keysOf s := hrefs j nd2 hold c hc
        exact absurd hcOld (hfreshKeys c hcNew)
      · exact huniq j nd2 j2 nd3 hold hold2 c hc hc2
      · rcases spawnKids_mem hkid2 with ⟨_, hch0, _, _, _⟩
        rw [hch0] at hc2
        cases hc2
    · rcases spawnKids_mem hkid with ⟨_, hch0, _, _, _⟩
      rw [hch0] at hc
      cases hc
  · -- SnapInv of the new state
    intro j nd2 hj
    rcases hcases j nd2 hj with ⟨rfl, rfl⟩ | ⟨hjk, hji, hold⟩ | ⟨hkid, rfl⟩
    · refine ⟨?_, ?_, ?_⟩
      · show nd.status ≠ ToTStatus.failed
        rw [hndst]; simp
      · intro _
        constructor
        · show 2 ≤ (kids.map (·.id)).length
          rw [List.length_map, hklen]
          exact hlen
        · show kb nd.depth
          exact hkb
      · intro hcomp
        rw [show (setChildrenOf (kids.map (·.id)) nd).status = nd.status from rfl, hndst] at hcomp
        cases hcomp
    · rcases hSnap j nd2 hold with ⟨h1, h2, h3⟩
      refine ⟨h1, h2, ?_⟩
      intro hcomp c hc
      rcases h3 hcomp c hc with ⟨q, hq, hqs⟩
      have hcI : c ≠ i := by
        intro he
        exact (hrefi j nd2 hold hcomp) (he ▸ hc)
      have hcK : c ∈ keysOf s := getN_mem_keys hq
      refine ⟨q, ?_, hqs⟩
      rw [hC5 c hcI hcK]
      exact hq
    · rcases spawnKids_mem hkid with ⟨hst, hch0, _, _, _⟩
      refine ⟨by rw [hst]; simp, by rw [hch0]; simp, ?_⟩
      intro hcomp
      rw [hst] at hcomp
      cases hcomp

/-- In an invariant state, a node whose status is not `complete` is not the
child of any `complete` node. -/
theorem not_ref_of_not_complete (kb : Nat → Prop) {s : ToTStateE} {i : Nat} {nd : ToTNodeE}
    (hSnap : SnapInv kb s) (hnd : getN s i = some nd) (hst : nd.status ≠ ToTStatus.complete) :
    ∀ j p, getN s j = some p → p.status = ToTStatus.complete → i ∉ p.children := by
  intro j p hj hcomp hin
  rcases (hSnap j p hj).2.2 hcomp i hin with ⟨q, hq, hqs⟩
  rw [hnd] at hq
  cases hq
  exact hst hqs

theorem kidsFold_spec (cfg : EngineCfg) (kb : Nat → Prop) (fuel : Nat)
    (hnode : ∀ nodeId r, RunInv kb r → NodePre r nodeId →
      NodePost kb r nodeId (processNodeG cfg fuel nodeId r)) :
    ∀ ids r, RunInv kb r → KidsPre r ids →
      KidsPost kb r ids (kidsFold cfg fuel ids r) := by
  intro ids
  induction ids with
  | nil =>
    intro r hR _
    rw [kidsFold_nil]
    exact ⟨hR, rfl, rfl, le_refl _, fun k hk => hk, fun k hk => Or.inl hk,
      fun k _ _ => rfl, fun j p hj c hc => Or.inl ⟨p, hj, hc⟩,
      fun _ c hc => absurd hc (List.not_mem_nil c)⟩
  | cons c cs ih =>
    intro r hR hK
    rcases hK with ⟨hnodup, hbound, hpend⟩
    rw [List.nodup_cons] at hnodup
    have hPre : NodePre r c := hpend c (List.mem_cons_self c cs)
    have hpost := hnode c r hR hPre
    rcases hout1 : processNodeG cfg fuel c r with ⟨rr, res1⟩
    rw [hout1] at hpost
    rw [kidsFold_cons, hout1]
    rcases hpost with ⟨hRr, hmd, hst, hnid, hkf, hkb2, hfr, hprov, hok⟩
    cases res1 with
    | error e =>
      refine ⟨hRr, hmd, hst, hnid, hkf, hkb2, ?_, hprov, ?_⟩
      · intro k hk hknot
        exact hfr k hk (fun he => hknot (he ▸ List.mem_cons_self c cs))
      · intro h
        exact Except.noConfusion h
    | ok u =>
      cases u
      have hKcs : KidsPre rr cs := by
        refine ⟨hnodup.2, ?_, ?_⟩
        · intro d hd
          exact lt_of_lt_of_le (hbound d (List.mem_cons_of_mem c hd)) hnid
        · intro d hd
          rcases hpend d (List.mem_cons_of_mem c hd) with ⟨nd, hndd, hp1, hp2⟩
          have hdk : d ∈ keysOf r.st := getN_mem_keys hndd
          have hdc : d ≠ c := fun he => hnodup.1 (he ▸ hd)
          exact ⟨nd, by rw [hfr d hdk hdc]; exact hndd, hp1, hp2⟩
      have hrest := ih rr hRr hKcs
      show KidsPost kb r (c :: cs) (kidsFold cfg fuel cs rr)
      rcases hout2 : kidsFold cfg fuel cs rr with ⟨r2, res2⟩
      rw [hout2] at hrest
      rcases hrest with ⟨hR2, hmd2, hst2, hnid2, hkf2, hkb22, hfr2, hprov2, hok2⟩
      refine ⟨hR2, hmd2.trans hmd, hst2.trans hst, le_trans hnid hnid2,
        fun k hk => hkf2 k (hkf k hk), ?_, ?_, ?_, ?_⟩
      · intro k hk
        rcases hkb22 k hk with hk1 | hk2
        · rcases hkb2 k hk1 with hk3 | hk4
          · exact Or.inl hk3
          · exact Or.inr hk4
        · exact Or.inr (le_trans hnid hk2)
      · intro k hk hknot
        have hkc : k ≠ c := fun he => hknot (he ▸ List.mem_cons_self c cs)
        have hkcs : k ∉ cs := fun he => hknot (List.mem_cons_of_mem c he)
        rw [hfr2 k (hkf k hk) hkcs, hfr k hk hkc]
      · intro j p hj c2 hc2
        rcases hprov2 j p hj c2 hc2 with ⟨q, hq, hqc⟩ | hge
        · rcases hprov j q hq c2 hqc with hold | hge2
          · exact Or.inl hold
          · exact Or.inr hge2
        · exact Or.inr (le_trans hnid hge)
      · intro hres d hd
        rcases List.mem_cons.mp hd with rfl | hd2
        · rcases hok rfl with ⟨nd, hnd, hndc⟩
          have hdk : d ∈ keysOf rr.st := getN_mem_keys hnd
          refine ⟨nd, ?_, hndc⟩
          rw [hfr2 d hdk hnodup.1]
          exact hnd
        · exact hok2 hres d hd2

theorem getN_updNode_frame (s : ToTStateE) (i : Nat) (f : ToTNodeE → ToTNodeE) :
    ∀ k, k ≠ i → getN (updNode s i f) k = getN s k := by
  intro k hk
  rw [getN_updNode, if_neg hk]

theorem prov_updNode {s : ToTStateE} {i : Nat} {f : ToTNodeE → ToTNodeE}
    (hch : ∀ nd, (f nd).children = nd.children) :
    ∀ j p, getN (updNode s i f) j = some p → ∀ c ∈ p.children,
      ∃ q, getN s j = some q ∧ c ∈ q.children := by
  intro j p hj c hc
  rw [getN_updNode] at hj
  by_cases hji : j = i
  · rw [if_pos hji] at hj
    rcases Option.map_eq_some'.mp hj with ⟨q, hq, rfl⟩
    rw [hch] at hc
    exact ⟨q, hq, hc⟩
  · rw [if_neg hji] at hj
    exact ⟨p, hj, hc⟩

theorem stepStatus_nextId (r : TreeRunE) (i : Nat) (σ : ToTStatus) :
    (stepStatus r i σ).nextId = r.nextId := rfl

theorem stepStatus_spec (kb : Nat → Prop) (σ : ToTStatus)
    (hσf : σ ≠ ToTStatus.failed) (hσc : σ ≠ ToTStatus.complete)
    {r : TreeRunE} {nodeId : Nat} {nd : ToTNodeE}
    (hR : RunInv kb r) (hnd : getN r.st nodeId = some nd)
    (hndnc : nd.status ≠ ToTStatus.complete) :
    RunInv kb (stepStatus r nodeId σ) ∧
    (stepStatus r nodeId σ).st.maxDepth = r.st.maxDepth ∧
    (stepStatus r nodeId σ).st.status = r.st.status ∧
    keysOf (stepStatus r nodeId σ).st = keysOf r.st ∧
    getN (stepStatus r nodeId σ).st nodeId = some (setStatusF σ nd) ∧
    (∀ k, k ≠ nodeId → getN (stepStatus r nodeId σ).st k = getN r.st k) ∧
    (∀ j p, getN (stepStatus r nodeId σ).st j = some p → ∀ c ∈ p.children,
      ∃ q, getN r.st j = some q ∧ c ∈ q.children) := by
  rcases hR with ⟨hA, hS, hSn⟩
  have hS2 : SnapInv kb (updNode r.st nodeId (setStatusF σ)) :=
    SnapInv_updNode_mid kb hS (fun _ => rfl) (fun _ => rfl)
      (fun _ => hσf) (fun _ => hσc)
      (not_ref_of_not_complete kb hS hnd hndnc)
  refine ⟨⟨AuxInv_updNode (fun _ => rfl) hA, hS2, ?_⟩, rfl, rfl,
    keysOf_updNode r.st nodeId _, ?_, getN_updNode_frame r.st nodeId _, ?_⟩
  · intro s hs
    rcases List.mem_append.mp hs with hs1 | hs2
    · exact hSn s hs1
    · rw [List.mem_singleton.mp hs2]
      exact hS2
  · show getN (updNode r.st nodeId (setStatusF σ)) nodeId = _
    rw [getN_updNode, if_pos rfl, hnd]
    rfl
  · intro j p hj c hc
    exact prov_updNode (f := setStatusF σ) (fun _ => rfl) j p hj c hc

theorem stepComplete_spec (kb : Nat → Prop) (res : ToTNodeResultE)
    {r : TreeRunE} {nodeId : Nat} {nd : ToTNodeE}
    (hR : RunInv kb r) (hnd : getN r.st nodeId = some nd)
    (hkidsdone : ∀ c ∈ nd.children, ∃ q, getN r.st c = some q ∧ q.status = ToTStatus.complete) :
    RunInv kb (stepComplete r nodeId res) ∧
    (stepComplete r nodeId res).st.maxDepth = r.st.maxDepth ∧
    (stepComplete r nodeId res).st.status = r.st.status ∧
    keysOf (stepComplete r nodeId res).st = keysOf r.st ∧
    getN (stepComplete r nodeId res).st nodeId = some (setResultComplete res nd) ∧
    (∀ k, k ≠ nodeId → getN (stepComplete r nodeId res).st k = getN r.st k) ∧
    (∀ j p, getN (stepComplete r nodeId res).st j = some p → ∀ c ∈ p.children,
      ∃ q, getN r.st j = some q ∧ c ∈ q.children) := by
  rcases hR with ⟨hA, hS, hSn⟩
  have hS2 : SnapInv kb (updNode r.st nodeId (setResultComplete res)) := by
    refine SnapInv_updNode_complete kb hS (fun _ => rfl) (fun _ => rfl) (fun _ => rfl) ?_
    intro nd2 hnd2 c hc
    rw [hnd] at hnd2
    cases hnd2
    exact hkidsdone c hc
  refine ⟨⟨AuxInv_updNode (fun _ => rfl) hA, hS2, ?_⟩, rfl, rfl,
    keysOf_updNode r.st nodeId _, ?_, getN_updNode_frame r.st nodeId _, ?_⟩
  · intro s hs
    rcases List.mem_append.mp hs with hs1 | hs2
    · exact hSn s hs1
    · rw [List.mem_singleton.mp hs2]
      exact hS2
  · show getN (updNode r.st nodeId (setResultComplete res)) nodeId = _
    rw [getN_updNode, if_pos rfl, hnd]
    rfl
  · intro j p hj c hc
    exact prov_updNode (f := setResultComplete res) (fun _ => rfl) j p hj c hc

theorem stepSpawn_spec (kb : Nat → Prop) {r : TreeRunE} {nodeId : Nat}
    {node : ToTNodeE} {sps : List SubProblemE}
    (hR : RunInv kb r)
    (hnd : getN r.st nodeId = some (setStatusF ToTStatus.decomposing node))
    (hkb : kb node.depth) (hlen : 2 ≤ sps.length) :
    letI kids := spawnKids r.nextId nodeId (node.depth + 1) sps
    letI ids := kids.map (·.id)
    letI rOut := stepSpawn r nodeId node sps
    RunInv kb rOut ∧
    rOut.st.maxDepth = r.st.maxDepth ∧
    rOut.st.status = r.st.status ∧
    rOut.nextId = r.nextId + kids.length ∧
    keysOf rOut.st = keysOf r.st ++ ids ∧
    (∃ nd2, getN rOut.st nodeId = some nd2 ∧ nd2.children = ids ∧
      nd2.status = ToTStatus.decomposing ∧ nd2.depth = node.depth) ∧
    (∀ k, k ≠ nodeId → k ∈ keysOf r.st → getN rOut.st k = getN r.st k) ∧
    KidsPre rOut ids ∧
    (∀ c ∈ ids, r.nextId ≤ c) ∧
    (∀ j p, getN rOut.st j = some p → ∀ c ∈ p.children,
      (∃ q, getN r.st j = some q ∧ c ∈ q.children) ∨ r.nextId ≤ c) := by
  rcases hR with ⟨hA, hS, hSn⟩
  have haux := hA
  rcases haux with ⟨hnodup, hbound, hrefs, huniq⟩
  have hspec := addChildren_spec kb (d := node.depth + 1) (w := sps) hA hS hnd rfl hkb hlen
  rcases hspec with ⟨hA2, hS2, hC3, hC4, hC5, hKeys2⟩
  set kids := spawnKids r.nextId nodeId (node.depth + 1) sps with hkids_def
  set ids := kids.map (·.id) with hids_def
  set s2 := addChildren r.st nodeId kids with hs2_def
  have hids_range : ids = List.range' r.nextId sps.length := by
    rw [hids_def, hkids_def]
    exact spawnKids_ids r.nextId nodeId (node.depth + 1) sps
  have hids_fresh : ∀ c ∈ ids, r.nextId ≤ c ∧ c < r.nextId + sps.length := by
    intro c hc
    rw [hids_range] at hc
    exact List.mem_range'_1.mp hc
  have hklen : kids.length = sps.length := spawnKids_length r.nextId nodeId (node.depth + 1) sps
  have hnodeKey : nodeId ∈ keysOf r.st := getN_mem_keys hnd
  have hnodeLt : nodeId < r.nextId := hbound nodeId hnodeKey
  have hidsNe : ∀ c ∈ ids, c ≠ nodeId := by
    intro c hc he
    have := (hids_fresh c hc).1
    omega
  -- the title update preserves everything relevant
  have hS3 : SnapInv kb (updNode s2 nodeId (setTitleF (if node.title == "Root Problem" then "Decomposed Problem" else node.title))) :=
    SnapInv_updNode_statusKeep kb hS2 (fun _ => rfl) (fun _ => rfl) (fun _ => rfl)
  have hA3 : AuxInv (updNode s2 nodeId (setTitleF (if node.title == "Root Problem" then "Decomposed Problem" else node.title))) (r.nextId + kids.length) :=
    AuxInv_updNode (fun _ => rfl) hA2
  refine ⟨⟨hA3, hS3, ?_⟩, ?_, ?_, rfl, ?_, ?_, ?_, ?_, fun c hc => (hids_fresh c hc).1, ?_⟩
  · -- snapshots
    intro s hs
    rcases List.mem_append.mp hs with hs1 | hs2x
    · exact hSn s hs1
    · rw [List.mem_singleton.mp hs2x]
      exact hS3
  · show (updNode s2 nodeId _).maxDepth = r.st.maxDepth
    rw [(updNode_fields _ _ _).1, hs2_def, (addChildren_fields _ _ _).1]
  · show (updNode s2 nodeId _).status = r.st.status
    rw [(updNode_fields _ _ _).2.2.1, hs2_def, (addChildren_fields _ _ _).2.2.1]
  · show keysOf (updNode s2 nodeId _) = keysOf r.st ++ ids
    rw [keysOf_updNode, hKeys2]
  · -- the parent entry
    refine ⟨setTitleF (if node.title == "Root Problem" then "Decomposed Problem" else node.title)
      (setChildrenOf ids (setStatusF ToTStatus.decomposing node)), ?_, rfl, rfl, rfl⟩
    show getN (updNode s2 nodeId _) nodeId = _
    rw [getN_updNode, if_pos rfl, hC3]
    rfl
  · -- frame
    intro k hk hkmem
    show getN (updNode s2 nodeId _) k = getN r.st k
    rw [getN_updNode_frame _ _ _ k hk, hC5 k hk hkmem]
  · -- KidsPre
    refine ⟨?_, ?_, ?_⟩
    · rw [hids_range]
      exact List.nodup_range' r.nextId sps.length
    · intro c hc
      show c < r.nextId + kids.length
      rw [hklen]
      exact (hids_fresh c hc).2
    · intro c hc
      rcases List.mem_map.mp hc with ⟨k, hkmem, rfl⟩
      rcases spawnKids_mem hkmem with ⟨hkst, hkch, _, _, _⟩
      refine ⟨k, ?_, hkst, hkch⟩
      show getN (updNode s2 nodeId _) k.id = some k
      rw [getN_updNode_frame _ _ _ k.id (hidsNe k.id hc), hC4 k hkmem]
  · -- provenance
    intro j p hj c hc
    rcases prov_updNode (s := s2) (i := nodeId)
        (f := setTitleF (if node.title == "Root Problem" then "Decomposed Problem" else node.title))
        (fun _ => rfl) j p hj c hc with ⟨q, hq, hqc⟩
    by_cases hjk : j ∈ keysOf r.st
    · by_cases hji : j = nodeId
      · subst hji
        rw [hC3] at hq
        cases hq
        exact Or.inr (hids_fresh c hqc).1
      · rw [hC5 j hji hjk] at hq
        exact Or.inl ⟨q, hq, hqc⟩
    · rw [hs2_def, getN_addChildren_new r.st nodeId kids j hjk] at hq
      rcases spawnKids_mem (List.mem_of_find?_eq_some hq) with ⟨_, hch0, _, _, _⟩
      rw [hch0] at hqc
      cases hqc

theorem processNodeG_spec (cfg : EngineCfg) (kb : Nat → Prop) (hcfg : CfgOk cfg kb) :
    ∀ fuel nodeId r, RunInv kb r → NodePre r nodeId →
      NodePost kb r nodeId (processNodeG cfg fuel nodeId r) := by
  intro fuel
  induction fuel with
  | zero =>
    intro nodeId r hR _
    rw [processNodeG]
    exact ⟨hR, rfl, rfl, le_refl _, fun k hk => hk, fun k hk => Or.inl hk,
      fun k _ _ => rfl, fun j p hj c hc => Or.inl ⟨p, hj, hc⟩,
      fun h => Except.noConfusion h⟩
  | succ fuel ih =>
    intro nodeId r hR hP
    rcases hP with ⟨node, hnode, hpend, hch0⟩
    have hnodeKey : nodeId ∈ keysOf r.st := getN_mem_keys hnode
    have hnodeLt : nodeId < r.nextId := hR.1.2.1 nodeId hnodeKey
    rw [processNodeG]
    dsimp only
    rw [hnode]
    dsimp only
    have hstep1 := stepStatus_spec kb ToTStatus.decomposing
      (fun h => ToTStatus.noConfusion h) (fun h => ToTStatus.noConfusion h)
      hR hnode (by rw [hpend]; exact fun h => ToTStatus.noConfusion h)
    set rr1 := stepStatus r nodeId ToTStatus.decomposing with hrr1_def
    rcases hstep1 with ⟨hR1, hmd1, hst1, hkeys1, hnode1, hfr1, hprov1⟩
    have hnid1 : rr1.nextId = r.nextId := rfl
    cases hdec : cfg.decompose nodeId node.depth with
    | error e =>
      dsimp only
      refine ⟨hR1, hmd1, hst1, le_refl _, ?_, ?_, ?_, ?_, fun h => Except.noConfusion h⟩
      · intro k hk
        rw [hkeys1]
        exact hk
      · intro k hk
        rw [hkeys1] at hk
        exact Or.inl hk
      · intro k _ hknot
        exact hfr1 k hknot
      · intro j p hj c hc
        exact Or.inl (hprov1 j p hj c hc)
    | ok dec =>
      dsimp only
      by_cases hadm : cfg.admitDec node.depth dec = true
      · rw [if_pos hadm]
        rcases hcfg nodeId node.depth dec hdec hadm with ⟨hkbd, hlen⟩
        have hspawn := stepSpawn_spec kb hR1 hnode1 hkbd hlen
        set ids := (spawnKids rr1.nextId nodeId (node.depth + 1) dec.subProblems).map
          (fun x => x.id) with hids_def
        rw [kidsFoldF_eq]
        set r3 := stepSpawn rr1 nodeId node dec.subProblems with hr3_def
        rcases hspawn with ⟨hR3, hmd3, hst3, hnid3, hkeys3, ⟨nd3, hnode3, hnd3ch, hnd3st, hnd3dep⟩,
          hfr3, hkpre3, hidslb, hprov3⟩
        have hfold := kidsFold_spec cfg kb fuel ih ids r3 hR3 hkpre3
        rcases hfoldout : kidsFold cfg fuel ids r3 with ⟨r4, res4⟩
        rw [hfoldout] at hfold
        rcases hfold with ⟨hR4, hmd4, hst4, hnid4, hkf4, hkb4, hfr4, hprov4, hok4⟩
        have hnodeNotIds : nodeId ∉ ids := by
          intro hin
          have := hidslb nodeId hin
          rw [hnid1] at this
          omega
        have hnodeKey3 : nodeId ∈ keysOf r3.st := by
          rw [hkeys3, hkeys1]
          exact List.mem_append.mpr (Or.inl hnodeKey)
        have hnode4 : getN r4.st nodeId = some nd3 := by
          rw [hfr4 nodeId hnodeKey3 hnodeNotIds]
          exact hnode3
        cases res4 with
        | error e =>
          dsimp only
          refine ⟨hR4, ?_, ?_, ?_, ?_, ?_, ?_, ?_, fun h => Except.noConfusion h⟩
          · rw [hmd4, hmd3, hmd1]
          · rw [hst4, hst3, hst1]
          · rw [hnid3, hnid1] at hnid4
            omega
          · intro k hk
            refine hkf4 k ?_
            rw [hkeys3, hkeys1]
            exact List.mem_append.mpr (Or.inl hk)
          · intro k hk
            rcases hkb4 k hk with hk1 | hk2
            · rw [hkeys3, hkeys1] at hk1
              rcases List.mem_append.mp hk1 with hk3 | hk4
              · exact Or.inl hk3
              · exact Or.inr (by rw [← hnid1]; exact hidslb k hk4)
            · rw [hnid3, hnid1] at hk2
              exact Or.inr (by omega)
          · intro k hk hknot
            have hkLt : k < r.nextId := hR.1.2.1 k hk
            have hkNotIds : k ∉ ids := by
              intro hin
              have := hidslb k hin
              rw [hnid1] at this
              omega
            have hkKey3 : k ∈ keysOf r3.st := by
              rw [hkeys3, hkeys1]
              exact List.mem_append.mpr (Or.inl hk)
            rw [hfr4 k hkKey3 hkNotIds, hfr3 k hknot (by rw [hkeys1]; exact hk), hfr1 k hknot]
          · intro j p hj c hc
            rcases hprov4 j p hj c hc with ⟨q, hq, hqc⟩ | hge
            · rcases hprov3 j q hq c hqc with ⟨q2, hq2, hq2c⟩ | hge2
              · exact Or.inl (hprov1 j q2 hq2 c hq2c)
              · exact Or.inr (by rw [hnid1] at hge2; exact hge2)
            · rw [hnid3, hnid1] at hge
              exact Or.inr (by omega)
        | ok u =>
          cases u
          dsimp only
          have hstep5 := stepStatus_spec kb ToTStatus.aggregating
            (fun h => ToTStatus.noConfusion h) (fun h => ToTStatus.noConfusion h)
            hR4 hnode4 (by rw [hnd3st]; exact fun h => ToTStatus.noConfusion h)
          set r5 := stepStatus r4 nodeId ToTStatus.aggregating with hr5_def
          rcases hstep5 with ⟨hR5, hmd5, hst5, hkeys5, hnode5, hfr5, hprov5⟩
          cases hagg : cfg.aggregate nodeId (childSolutionsOf r5.st nodeId) with
          | error e =>
            dsimp only
            refine ⟨hR5, ?_, ?_, ?_, ?_, ?_, ?_, ?_, fun h => Except.noConfusion h⟩
            · rw [hmd5, hmd4, hmd3, hmd1]
            · rw [hst5, hst4, hst3, hst1]
            · have h3 : r.nextId ≤ r3.nextId := by
                rw [hnid3, hnid1]
                exact Nat.le_add_right _ _
              exact le_trans h3 hnid4
            · intro k hk
              rw [hkeys5]
              refine hkf4 k ?_
              rw [hkeys3, hkeys1]
              exact List.mem_append.mpr (Or.inl hk)
            · intro k hk
              rw [hkeys5] at hk
              rcases hkb4 k hk with hk1 | hk2
              · rw [hkeys3, hkeys1] at hk1
                rcases List.mem_append.mp hk1 with hk3 | hk4
                · exact Or.inl hk3
                · exact Or.inr (by rw [← hnid1]; exact hidslb k hk4)
              · rw [hnid3, hnid1] at hk2
                exact Or.inr (by omega)
            · intro k hk hknot
              have hkLt : k < r.nextId := hR.1.2.1 k hk
              have hkNotIds : k ∉ ids := by
                intro hin
                have := hidslb k hin
                rw [hnid1] at this
                omega
              have hkKey3 : k ∈ keysOf r3.st := by
                rw [hkeys3, hkeys1]
                exact List.mem_append.mpr (Or.inl hk)
              rw [hfr5 k hknot, hfr4 k hkKey3 hkNotIds,
                hfr3 k hknot (by rw [hkeys1]; exact hk), hfr1 k hknot]
            · intro j p hj c hc
              rcases hprov5 j p hj c hc with ⟨q0, hq0, hq0c⟩
              rcases hprov4 j q0 hq0 c hq0c with ⟨q, hq, hqc⟩ | hge
              · rcases hprov3 j q hq c hqc with ⟨q2, hq2, hq2c⟩ | hge2
                · exact Or.inl (hprov1 j q2 hq2 c hq2c)
                · exact Or.inr (by rw [hnid1] at hge2; exact hge2)
              · rw [hnid3, hnid1] at hge
                exact Or.inr (by omega)
          | ok sc =>
            rcases sc with ⟨sol, contribs⟩
            dsimp only
            have hkidsdone5 : ∀ c ∈ (setStatusF ToTStatus.aggregating nd3).children,
                ∃ q, getN r5.st c = some q ∧ q.status = ToTStatus.complete := by
              intro c hc
              have hcIds : c ∈ ids := by
                have : (setStatusF ToTStatus.aggregating nd3).children = nd3.children := rfl
                rw [this, hnd3ch] at hc
                exact hc
              have hcNe : c ≠ nodeId := by
                intro he
                exact hnodeNotIds (he ▸ hcIds)
              rcases hok4 rfl c hcIds with ⟨q, hq, hqs⟩
              refine ⟨q, ?_, hqs⟩
              rw [hfr5 c hcNe]
              exact hq
            have hstep6 := stepComplete_spec kb (ToTNodeResultE.aggregated sol contribs)
              hR5 hnode5 hkidsdone5
            rcases hstep6 with ⟨hR6, hmd6, hst6, hkeys6, hnode6, hfr6, hprov6⟩
            refine ⟨hR6, ?_, ?_, ?_, ?_, ?_, ?_, ?_, ?_⟩
            · rw [hmd6, hmd5, hmd4, hmd3, hmd1]
            · rw [hst6, hst5, hst4, hst3, hst1]
            · have h3 : r.nextId ≤ r3.nextId := by
                rw [hnid3, hnid1]
                exact Nat.le_add_right _ _
              exact le_trans h3 hnid4
            · intro k hk
              rw [hkeys6, hkeys5]
              refine hkf4 k ?_
              rw [hkeys3, hkeys1]
              exact List.mem_append.mpr (Or.inl hk)
            · intro k hk
              rw [hkeys6, hkeys5] at hk
              rcases hkb4 k hk with hk1 | hk2
              · rw [hkeys3, hkeys1] at hk1
                rcases List.mem_append.mp hk1 with hk3 | hk4
                · exact Or.inl hk3
                · exact Or.inr (by rw [← hnid1]; exact hidslb k hk4)
              · rw [hnid3, hnid1] at hk2
                exact Or.inr (by omega)
            · intro k hk hknot
              have hkLt : k < r.nextId := hR.1.2.1 k hk
              have hkNotIds : k ∉ ids := by
                intro hin
                have := hidslb k hin
                rw [hnid1] at this
                omega
              have hkKey3 : k ∈ keysOf r3.st := by
                rw [hkeys3, hkeys1]
                exact List.mem_append.mpr (Or.inl hk)
              rw [hfr6 k hknot, hfr5 k hknot, hfr4 k hkKey3 hkNotIds,
                hfr3 k hknot (by rw [hkeys1]; exact hk), hfr1 k hknot]
            · intro j p hj c hc
              rcases hprov6 j p hj c hc with ⟨q9, hq9, hq9c⟩
              rcases hprov5 j q9 hq9 c hq9c with ⟨q0, hq0, hq0c⟩
              rcases hprov4 j q0 hq0 c hq0c with ⟨q, hq, hqc⟩ | hge
              · rcases hprov3 j q hq c hqc with ⟨q2, hq2, hq2c⟩ | hge2
                · exact Or.inl (hprov1 j q2 hq2 c hq2c)
                · exact Or.inr (by rw [hnid1] at hge2; exact hge2)
              · rw [hnid3, hnid1] at hge
                exact Or.inr (by omega)
            · intro _
              exact ⟨setResultComplete (ToTNodeResultE.aggregated sol contribs)
                (setStatusF ToTStatus.aggregating nd3), hnode6, rfl⟩
      · rw [if_neg hadm]
        have hstep2 := stepStatus_spec kb ToTStatus.executing
          (fun h => ToTStatus.noConfusion h) (fun h => ToTStatus.noConfusion h)
          hR1 hnode1 (fun h => ToTStatus.noConfusion h)
        set r2 := stepStatus rr1 nodeId ToTStatus.executing with hr2_def
        rcases hstep2 with ⟨hR2, hmd2, hst2, hkeys2, hnode2, hfr2, hprov2⟩
        have hkidsdone2 : ∀ c ∈ (setStatusF ToTStatus.executing
            (setStatusF ToTStatus.decomposing node)).children,
            ∃ q, getN r2.st c = some q ∧ q.status = ToTStatus.complete := by
          intro c hc
          have hcc : c ∈ node.children := hc
          rw [hch0] at hcc
          cases hcc
        have hstep3 := stepComplete_spec kb
          (ToTNodeResultE.leaf (cfg.leafBlueprint nodeId node.query)) hR2 hnode2 hkidsdone2
        rcases hstep3 with ⟨hR3, hmd3, hst3, hkeys3, hnode3, hfr3, hprov3⟩
        refine ⟨hR3, ?_, ?_, le_refl _, ?_, ?_, ?_, ?_, ?_⟩
        · rw [hmd3, hmd2, hmd1]
        · rw [hst3, hst2, hst1]
        · intro k hk
          rw [hkeys3, hkeys2, hkeys1]
          exact hk
        · intro k hk
          rw [hkeys3, hkeys2, hkeys1] at hk
          exact Or.inl hk
        · intro k _ hknot
          rw [hfr3 k hknot, hfr2 k hknot, hfr1 k hknot]
        · intro j p hj c hc
          rcases hprov3 j p hj c hc with ⟨q0, hq0, hq0c⟩
          rcases hprov2 j q0 hq0 c hq0c with ⟨q, hq, hqc⟩
          exact Or.inl (hprov1 j q hq c hqc)
        · intro _
          exact ⟨setResultComplete (ToTNodeResultE.leaf (cfg.leafBlueprint nodeId node.query))
            (setStatusF ToTStatus.executing (setStatusF ToTStatus.decomposing node)), hnode3, rfl⟩

/-! ## Session-level invariants -/
theorem getN_init (query : String) (maxDepth : Nat) (i : Nat) :
    getN (initTreeState query maxDepth) i =
      if i = 0 then some (createNode 0 query "Root Problem" none 0) else none := by
  unfold getN initTreeState
  by_cases h : i = 0
  · subst h
    rfl
  · have hb : (0 == i) = false := beq_eq_false_iff_ne.mpr fun he => h he.symm
    simp [List.find?_cons, hb, h]

theorem initTreeState_snapInv (kb : Nat → Prop) (query : String) (maxDepth : Nat) :
    SnapInv kb (initTreeState query maxDepth) := by
  intro i nd hnd
  rw [getN_init] at hnd
  by_cases h : i = 0
  · rw [if_pos h] at hnd
    cases hnd
    refine ⟨fun hx => ToTStatus.noConfusion hx, fun hc => absurd rfl hc, fun _ c hc => ?_⟩
    cases hc
  · rw [if_neg h] at hnd
    cases hnd

theorem initTreeRun_inv (kb : Nat → Prop) (query : String) (maxDepth : Nat) :
    RunInv kb (initTreeRun query maxDepth) ∧ NodePre (initTreeRun query maxDepth) 0 := by
  have hget : ∀ i, getN (initTreeRun query maxDepth).st i =
      if i = 0 then some (createNode 0 query "Root Problem" none 0) else none :=
    fun i => getN_init query maxDepth i
  refine ⟨⟨⟨?_, ?_, ?_, ?_⟩, ?_, ?_⟩, ?_⟩
  · exact List.nodup_singleton 0
  · intro k hk
    have : k = 0 := by
      cases hk with
      | head => rfl
      | tail _ hk2 => cases hk2
    rw [this]
    exact Nat.one_pos
  · intro i nd hnd c hc
    rw [hget] at hnd
    by_cases h : i = 0
    · rw [if_pos h] at hnd
      cases hnd
      cases hc
    · rw [if_neg h] at hnd
      cases hnd
  · intro i nd j nd2 hnd _ c hc _
    rw [hget] at hnd
    by_cases h : i = 0
    · rw [if_pos h] at hnd
      cases hnd
      cases hc
    · rw [if_neg h] at hnd
      cases hnd
  · exact initTreeState_snapInv kb query maxDepth
  · intro s hs
    have : s = initTreeState query maxDepth := by
      cases hs with
      | head => rfl
      | tail _ hs2 => cases hs2
    rw [this]
    exact initTreeState_snapInv kb query maxDepth
  · exact ⟨createNode 0 query "Root Problem" none 0, by rw [hget]; rfl, rfl, rfl⟩

theorem runTreeSession_spec (cfg : EngineCfg) (kb : Nat → Prop) (hcfg : CfgOk cfg kb)
    (query : String) (maxDepth fuel : Nat) :
    (∀ s ∈ (runTreeSession cfg query maxDepth fuel).1.snaps, SnapInv kb s) ∧
    ((runTreeSession cfg query maxDepth fuel).2.1 = Except.ok () →
      (runTreeSession cfg query maxDepth fuel).1.st.status = OverallStatus.complete) ∧
    (∀ e, (runTreeSession cfg query maxDepth fuel).2.1 = Except.error e →
      (runTreeSession cfg query maxDepth fuel).1.st.status = OverallStatus.failed) := by
  have hinit := initTreeRun_inv kb query maxDepth
  have hpost := processNodeG_spec cfg kb hcfg fuel 0 (initTreeRun query maxDepth)
    hinit.1 hinit.2
  unfold runTreeSession
  rcases hout : processNodeG cfg fuel 0 (initTreeRun query maxDepth) with ⟨r, res⟩
  rw [hout] at hpost
  rcases hpost with ⟨⟨_, hS, hSn⟩, _⟩
  cases res with
  | ok u =>
    cases u
    refine ⟨?_, fun _ => rfl, fun e he => Except.noConfusion he⟩
    intro s hs
    simp only [emitT, List.mem_append, List.mem_singleton] at hs
    rcases hs with hs | hs
    · exact hSn s hs
    · subst hs
      exact fun i nd hnd => hS i nd hnd
  | error e =>
    refine ⟨?_, fun h => Except.noConfusion h, fun e2 _ => rfl⟩
    intro s hs
    simp only [emitT, List.mem_append, List.mem_singleton] at hs
    rcases hs with hs | hs
    · exact hSn s hs
    · subst hs
      exact fun i nd hnd => hS i nd hnd

theorem backboneCfg_ok (env : BackboneEnv) (prompts : PromptsE) (maxDepth : Nat) :
    CfgOk (backboneCfg env prompts maxDepth) (fun d => d < maxDepth - 1) := by
  intro i d dec _ hadm
  simp only [backboneCfg, Bool.and_eq_true, decide_eq_true_eq] at hadm
  exact ⟨hadm.1.1, hadm.2⟩

theorem decomposerAnalyze_depth (d maxDepth : Nat) (resp : Except Unit RespText)
    (h : (decomposerAnalyze d maxDepth resp).1.shouldDecompose = true) : d < maxDepth := by
  by_contra hge
  have hge2 : maxDepth ≤ d := Nat.le_of_not_lt hge
  rw [decomposerAnalyze.eq_def, if_pos hge2] at h
  exact Bool.noConfusion h

theorem legacyCfg_ok (env : LegacyEnv) (maxDepth : Nat) :
    CfgOk (legacyCfg env maxDepth) (fun d => d < maxDepth) := by
  intro i d dec hdec hadm
  simp only [legacyCfg, Except.ok.injEq] at hdec
  subst hdec
  simp only [legacyCfg, Bool.and_eq_true, decide_eq_true_eq] at hadm
  exact ⟨decomposerAnalyze_depth _ _ _ hadm.1, hadm.2⟩

theorem runToTB_run_eq (env : BackboneEnv) (prompts : PromptsE) (query : String)
    (maxDepth fuel : Nat) :
    (runToTB env prompts query maxDepth fuel).run =
      (runTreeSession (backboneCfg env prompts maxDepth) query maxDepth fuel).1 := by
  unfold runToTB
  rcases h : runTreeSession (backboneCfg env prompts maxDepth) query maxDepth fuel
    with ⟨r, ex, fs⟩
  cases ex <;> rfl

theorem executeToTO_run_eq (env : LegacyEnv) (query : String) (maxDepth fuel : Nat) :
    (executeToTO env query maxDepth fuel).run =
      (runTreeSession (legacyCfg env maxDepth) query maxDepth fuel).1 := by
  unfold executeToTO
  rcases h : runTreeSession (legacyCfg env maxDepth) query maxDepth fuel with ⟨r, ex, fs⟩
  cases ex <;> rfl

theorem runToTB_snaps_inv (env : BackboneEnv) (prompts : PromptsE) (query : String)
    (maxDepth fuel : Nat) :
    ∀ s ∈ (runToTB env prompts query maxDepth fuel).run.snaps,
      SnapInv (fun d => d < maxDepth - 1) s := by
  rw [runToTB_run_eq]
  exact (runTreeSession_spec _ _ (backboneCfg_ok env prompts maxDepth) query maxDepth fuel).1

theorem executeToTO_snaps_inv (env : LegacyEnv) (query : String) (maxDepth fuel : Nat) :
    ∀ s ∈ (executeToTO env query maxDepth fuel).run.snaps,
      SnapInv (fun d => d < maxDepth) s := by
  rw [executeToTO_run_eq]
  exact (runTreeSession_spec _ _ (legacyCfg_ok env maxDepth) query maxDepth fuel).1

/-! ## Verification-phase lemmas -/
theorem collectExcept_append (l1 l2 : List (Except ε α)) :
    collectExcept (l1 ++ l2) =
      match collectExcept l1 with
      | .error e => .error e
      | .ok v1 => (collectExcept l2).map fun v2 => v1 ++ v2 := by
  induction l1 with
  | nil =>
    simp only [List.nil_append, collectExcept]
    cases collectExcept l2 <;> simp [Except.map]
  | cons x rest ih =>
    cases x with
    | error e => simp [collectExcept]
    | ok a =>
      simp only [List.cons_append, collectExcept]
      rw [show rest.append l2 = rest ++ l2 from rfl, ih]
      cases collectExcept rest with
      | error e => simp [Except.map]
      | ok v1 =>
        cases collectExcept l2 <;> simp [Except.map]

theorem collectExcept_length (l : List (Except ε α)) (vs : List α)
    (h : collectExcept l = .ok vs) : vs.length = l.length := by
  induction l generalizing vs with
  | nil =>
    simp only [collectExcept, Except.ok.injEq] at h
    subst h
    rfl
  | cons x rest ih =>
    cases x with
    | error e => simp [collectExcept] at h
    | ok a =>
      simp only [collectExcept] at h
      cases hr : collectExcept rest with
      | error e => rw [hr] at h; simp [Except.map] at h
      | ok vr =>
        rw [hr] at h
        simp only [Except.map, Except.ok.injEq] at h
        subst h
        simp [ih vr hr]

theorem collectExcept_ok_of_forall (l : List (Except ε α))
    (h : ∀ x ∈ l, ∃ a, x = .ok a) : ∃ vs, collectExcept l = .ok vs := by
  induction l with
  | nil => exact ⟨[], rfl⟩
  | cons x rest ih =>
    rcases h x (List.mem_cons_self x rest) with ⟨a, ha⟩
    subst ha
    rcases ih (fun y hy => h y (List.mem_cons_of_mem _ hy)) with ⟨vs, hvs⟩
    exact ⟨a :: vs, by simp [collectExcept, hvs, Except.map]⟩

theorem batchRecoveryGo_result (hs : List Json) (env : VerifyEnv) :
    ∀ n i acc evs, hs.length ≤ i + n →
      (batchRecoveryGo hs env i acc evs).1 =
        (collectExcept ((hs.enum.drop i).map fun p =>
          verifySingleE (env.attempt2 p.1) p.2)).map fun vs => acc ++ vs := by
  intro n
  induction n with
  | zero =>
    intro i acc evs hle
    rw [batchRecoveryGo, dif_neg (by omega)]
    rw [List.drop_eq_nil_of_le (by rw [List.enum_length]; omega)]
    simp [collectExcept, Except.map]
  | succ n ih =>
    intro i acc evs hle
    by_cases hlt : i < hs.length
    · rw [batchRecoveryGo, dif_pos hlt]
      dsimp only
      have hdd : (hs.enum.drop i).drop 3 = hs.enum.drop (i + 3) := by
        rw [List.drop_drop, Nat.add_comm]
      have hsplit : (hs.enum.drop i).map (fun p => verifySingleE (env.attempt2 p.1) p.2) =
          ((hs.enum.drop i).take 3).map (fun p => verifySingleE (env.attempt2 p.1) p.2) ++
            (hs.enum.drop (i + 3)).map (fun p => verifySingleE (env.attempt2 p.1) p.2) := by
        rw [← List.map_append, ← hdd, List.take_append_drop]
      cases hc : collectExcept (((hs.enum.drop i).take 3).map fun p =>
          verifySingleE (env.attempt2 p.1) p.2) with
      | error e =>
        rw [hsplit, collectExcept_append, hc]
        rfl
      | ok vs =>
        rw [hsplit, collectExcept_append, hc]
        dsimp only
        have hstep : ∀ evs2, (batchRecoveryGo hs env (i + 3) (acc ++ vs) evs2).1 =
            (collectExcept ((hs.enum.drop (i + 3)).map fun p =>
              verifySingleE (env.attempt2 p.1) p.2)).map fun v2 => (acc ++ vs) ++ v2 :=
          fun evs2 => ih (i + 3) (acc ++ vs) evs2 (by omega)
        by_cases h3 : i + 3 < hs.length
        · rw [if_pos h3, hstep]
          cases collectExcept ((hs.enum.drop (i + 3)).map fun p =>
            verifySingleE (env.attempt2 p.1) p.2) <;> simp [Except.map]
        · rw [if_neg h3, hstep]
          cases collectExcept ((hs.enum.drop (i + 3)).map fun p =>
            verifySingleE (env.attempt2 p.1) p.2) <;> simp [Except.map]
    · rw [batchRecoveryGo, dif_neg hlt]
      rw [List.drop_eq_nil_of_le (by rw [List.enum_length]; omega)]
      simp [collectExcept, Except.map]

theorem mem_completes_shape (l : List ((Nat × Json) × Except JsError Json)) (v : VEvent)
    (h : v ∈ l.filterMap fun q =>
      match q.2 with
      | .ok _ => some (VEvent.traceComplete q.1.1)
      | .error _ => none) : ∃ j, v = VEvent.traceComplete j := by
  rcases List.mem_filterMap.mp h with ⟨q, _, hq⟩
  rcases q with ⟨p, out⟩
  cases out with
  | ok w => exact ⟨p.1, (Option.some.inj hq).symm⟩
  | error e2 => exact Option.noConfusion hq

theorem mem_batchPairEvs_shape (l : List (Nat × Json)) (v : VEvent)
    (h : v ∈ (l.map fun p => [VEvent.traceRunning p.1, VEvent.call2 p.1]).flatten) :
    ∃ j, v = VEvent.traceRunning j ∨ v = VEvent.call2 j := by
  rcases List.mem_flatten.mp h with ⟨sub, hsub, hv⟩
  rcases List.mem_map.mp hsub with ⟨p, _, hp⟩
  subst hp
  rcases hv with _ | ⟨_, _ | ⟨_, h3⟩⟩
  · exact ⟨p.1, Or.inl rfl⟩
  · exact ⟨p.1, Or.inr rfl⟩
  · cases h3

theorem batchRecoveryGo_evs_mono (hs : List Json) (env : VerifyEnv) :
    ∀ n i acc evs, hs.length ≤ i + n →
      ∀ v ∈ evs, v ∈ (batchRecoveryGo hs env i acc evs).2 := by
  intro n
  induction n with
  | zero =>
    intro i acc evs hle v hv
    rw [batchRecoveryGo, dif_neg (by omega)]
    exact hv
  | succ n ih =>
    intro i acc evs hle v hv
    by_cases hlt : i < hs.length
    · rw [batchRecoveryGo, dif_pos hlt]
      dsimp only
      cases hc : collectExcept (((hs.enum.drop i).take 3).map fun p =>
          verifySingleE (env.attempt2 p.1) p.2) with
      | error e =>
        exact List.mem_append.mpr (Or.inl (List.mem_append.mpr (Or.inl
          (List.mem_append.mpr (Or.inl hv)))))
      | ok vs =>
        dsimp only
        have hbase : v ∈ ((evs ++ ((hs.enum.drop (i + 3)).map fun p => VEvent.tracePending p.1))
            ++ (((hs.enum.drop i).take 3).map fun p =>
                [VEvent.traceRunning p.1, VEvent.call2 p.1]).flatten)
            ++ ((((hs.enum.drop i).take 3).zip (((hs.enum.drop i).take 3).map fun p =>
                verifySingleE (env.attempt2 p.1) p.2)).filterMap fun q =>
              match q.2 with
              | .ok _ => some (VEvent.traceComplete q.1.1)
              | .error _ => none) :=
          List.mem_append.mpr (Or.inl (List.mem_append.mpr (Or.inl
            (List.mem_append.mpr (Or.inl hv)))))
        by_cases h3 : i + 3 < hs.length
        · rw [if_pos h3]
          exact ih (i + 3) _ _ (by omega) v (List.mem_append.mpr (Or.inl hbase))
        · rw [if_neg h3]
          exact ih (i + 3) _ _ (by omega) v hbase
    · rw [batchRecoveryGo, dif_neg hlt]
      exact hv

theorem batchRecoveryGo_sleep (hs : List Json) (env : VerifyEnv) :
    ∀ n i acc evs, hs.length ≤ i + n →
      ∀ ms, VEvent.sleep ms ∈ (batchRecoveryGo hs env i acc evs).2 →
        VEvent.sleep ms ∈ evs ∨ ms = 1500 := by
  intro n
  induction n with
  | zero =>
    intro i acc evs hle ms h
    rw [batchRecoveryGo, dif_neg (by omega)] at h
    exact Or.inl h
  | succ n ih =>
    intro i acc evs hle ms h
    by_cases hlt : i < hs.length
    · rw [batchRecoveryGo, dif_pos hlt] at h
      dsimp only at h
      cases hc : collectExcept (((hs.enum.drop i).take 3).map fun p =>
          verifySingleE (env.attempt2 p.1) p.2) with
      | error e =>
        rw [hc] at h
        dsimp only at h
        rcases List.mem_append.mp h with h1 | h1
        · rcases List.mem_append.mp h1 with h2 | h2
          · rcases List.mem_append.mp h2 with h4 | h4
            · exact Or.inl h4
            · rcases List.mem_map.mp h4 with ⟨p, _, hp⟩
              exact VEvent.noConfusion hp
          · rcases mem_batchPairEvs_shape _ _ h2 with ⟨j, hj | hj⟩ <;>
              exact VEvent.noConfusion hj
        · rcases mem_completes_shape _ _ h1 with ⟨j, hj⟩
          exact VEvent.noConfusion hj
      | ok vs =>
        rw [hc] at h
        dsimp only at h
        have hBig : VEvent.sleep ms ∈ ((evs ++ ((hs.enum.drop (i + 3)).map fun p =>
                VEvent.tracePending p.1))
              ++ (((hs.enum.drop i).take 3).map fun p =>
                  [VEvent.traceRunning p.1, VEvent.call2 p.1]).flatten)
              ++ ((((hs.enum.drop i).take 3).zip (((hs.enum.drop i).take 3).map fun p =>
                  verifySingleE (env.attempt2 p.1) p.2)).filterMap fun q =>
                match q.2 with
                | .ok _ => some (VEvent.traceComplete q.1.1)
                | .error _ => none) →
            VEvent.sleep ms ∈ evs := by
          intro hmem
          rcases List.mem_append.mp hmem with h1 | h1
          · rcases List.mem_append.mp h1 with h2 | h2
            · rcases List.mem_append.mp h2 with h4 | h4
              · exact h4
              · rcases List.mem_map.mp h4 with ⟨p, _, hp⟩
                exact VEvent.noConfusion hp
            · rcases mem_batchPairEvs_shape _ _ h2 with ⟨j, hj | hj⟩ <;>
                exact VEvent.noConfusion hj
          · rcases mem_completes_shape _ _ h1 with ⟨j, hj⟩
            exact VEvent.noConfusion hj
        by_cases h3 : i + 3 < hs.length
        · rw [if_pos h3] at h
          rcases ih (i + 3) _ _ (by omega) ms h with hin | h1500
          · rcases List.mem_append.mp hin with h1 | h1
            · exact Or.inl (hBig h1)
            · have h6 := List.mem_singleton.mp h1
              exact Or.inr (by cases h6; rfl)
          · exact Or.inr h1500
        · rw [if_neg h3] at h
          rcases ih (i + 3) _ _ (by omega) ms h with hin | h1500
          · exact Or.inl (hBig hin)
          · exact Or.inr h1500
    · rw [batchRecoveryGo, dif_neg hlt] at h
      exact Or.inl h

theorem mem_zip_map_self (f : α → β) (l : List α) (a : α) (ha : a ∈ l) :
    (a, f a) ∈ l.zip (l.map f) := by
  induction l with
  | nil => cases ha
  | cons x xs ih =>
    rcases List.mem_cons.mp ha with h | h
    · subst h
      exact List.mem_cons_self _ _
    · exact List.mem_cons_of_mem _ (ih h)

theorem batchRecoveryGo_events (hs : List Json) (env : VerifyEnv) :
    ∀ n i acc evs, hs.length ≤ i + n →
      (∀ p ∈ hs.enum.drop i, ∃ v, verifySingleE (env.attempt2 p.1) p.2 = .ok v) →
      (∀ p ∈ hs.enum.drop i,
        VEvent.traceRunning p.1 ∈ (batchRecoveryGo hs env i acc evs).2 ∧
        VEvent.call2 p.1 ∈ (batchRecoveryGo hs env i acc evs).2 ∧
        VEvent.traceComplete p.1 ∈ (batchRecoveryGo hs env i acc evs).2) ∧
      (∀ p ∈ hs.enum.drop (i + 3),
        VEvent.tracePending p.1 ∈ (batchRecoveryGo hs env i acc evs).2) := by
  intro n
  induction n with
  | zero =>
    intro i acc evs hle _
    have hnil : hs.enum.drop i = [] :=
      List.drop_eq_nil_of_le (by rw [List.enum_length]; omega)
    have hnil3 : hs.enum.drop (i + 3) = [] :=
      List.drop_eq_nil_of_le (by rw [List.enum_length]; omega)
    rw [hnil, hnil3]
    exact ⟨fun p hp => absurd hp (List.not_mem_nil p), fun p hp => absurd hp (List.not_mem_nil p)⟩
  | succ n ih =>
    intro i acc evs hle hok
    by_cases hlt : i < hs.length
    · have hout : ∃ vs, collectExcept (((hs.enum.drop i).take 3).map fun p =>
          verifySingleE (env.attempt2 p.1) p.2) = .ok vs := by
        refine collectExcept_ok_of_forall _ fun x hx => ?_
        rcases List.mem_map.mp hx with ⟨p, hp, hfx⟩
        rcases hok p (List.mem_of_mem_take hp) with ⟨v, hv⟩
        exact ⟨v, by rw [← hfx, hv]⟩
      rcases hout with ⟨vs, hc⟩
      have hdd : (hs.enum.drop i).drop 3 = hs.enum.drop (i + 3) := by
        rw [List.drop_drop, Nat.add_comm]
      have hok3 : ∀ p ∈ hs.enum.drop (i + 3), ∃ v,
          verifySingleE (env.attempt2 p.1) p.2 = .ok v := by
        intro p hp
        rw [← hdd] at hp
        exact hok p (List.mem_of_mem_drop hp)
      have hstep : ∀ evs2,
          (∀ p ∈ hs.enum.drop (i + 3),
            VEvent.traceRunning p.1 ∈ (batchRecoveryGo hs env (i + 3) (acc ++ vs) evs2).2 ∧
            VEvent.call2 p.1 ∈ (batchRecoveryGo hs env (i + 3) (acc ++ vs) evs2).2 ∧
            VEvent.traceComplete p.1 ∈ (batchRecoveryGo hs env (i + 3) (acc ++ vs) evs2).2) ∧
          (∀ p ∈ hs.enum.drop (i + 3 + 3),
            VEvent.tracePending p.1 ∈ (batchRecoveryGo hs env (i + 3) (acc ++ vs) evs2).2) :=
        fun evs2 => ih (i + 3) (acc ++ vs) evs2 (by omega) hok3
    -- the events appended before the recursive call, as one list
      have hmono : ∀ evs2 v, v ∈ evs2 → v ∈ (batchRecoveryGo hs env (i + 3) (acc ++ vs) evs2).2 :=
        fun evs2 v hv => batchRecoveryGo_evs_mono hs env (n + 1) (i + 3) (acc ++ vs) evs2
          (by omega) v hv
      rw [batchRecoveryGo, dif_pos hlt]
      dsimp only
      rw [hc]
      dsimp only
      have hbatchEvs : ∀ p ∈ (hs.enum.drop i).take 3,
          VEvent.traceRunning p.1 ∈ ((evs ++ ((hs.enum.drop (i + 3)).map fun q =>
              VEvent.tracePending q.1))
            ++ (((hs.enum.drop i).take 3).map fun q =>
                [VEvent.traceRunning q.1, VEvent.call2 q.1]).flatten)
            ++ ((((hs.enum.drop i).take 3).zip (((hs.enum.drop i).take 3).map fun q =>
                verifySingleE (env.attempt2 q.1) q.2)).filterMap fun q =>
              match q.2 with
              | .ok _ => some (VEvent.traceComplete q.1.1)
              | .error _ => none) ∧
          VEvent.call2 p.1 ∈ ((evs ++ ((hs.enum.drop (i + 3)).map fun q =>
              VEvent.tracePending q.1))
            ++ (((hs.enum.drop i).take 3).map fun q =>
                [VEvent.traceRunning q.1, VEvent.call2 q.1]).flatten)
            ++ ((((hs.enum.drop i).take 3).zip (((hs.enum.drop i).take 3).map fun q =>
                verifySingleE (env.attempt2 q.1) q.2)).filterMap fun q =>
              match q.2 with
              | .ok _ => some (VEvent.traceComplete q.1.1)
              | .error _ => none) ∧
          VEvent.traceComplete p.1 ∈ ((evs ++ ((hs.enum.drop (i + 3)).map fun q =>
              VEvent.tracePending q.1))
            ++ (((hs.enum.drop i).take 3).map fun q =>
                [VEvent.traceRunning q.1, VEvent.call2 q.1]).flatten)
            ++ ((((hs.enum.drop i).take 3).zip (((hs.enum.drop i).take 3).map fun q =>
                verifySingleE (env.attempt2 q.1) q.2)).filterMap fun q =>
              match q.2 with
              | .ok _ => some (VEvent.traceComplete q.1.1)
              | .error _ => none) := by
        intro p hp
        have hflat : VEvent.traceRunning p.1 ∈ (((hs.enum.drop i).take 3).map fun q =>
            [VEvent.traceRunning q.1, VEvent.call2 q.1]).flatten :=
          List.mem_flatten.mpr ⟨[VEvent.traceRunning p.1, VEvent.call2 p.1],
            List.mem_map.mpr ⟨p, hp, rfl⟩, List.mem_cons_self _ _⟩
        have hflat2 : VEvent.call2 p.1 ∈ (((hs.enum.drop i).take 3).map fun q =>
            [VEvent.traceRunning q.1, VEvent.call2 q.1]).flatten :=
          List.mem_flatten.mpr ⟨[VEvent.traceRunning p.1, VEvent.call2 p.1],
            List.mem_map.mpr ⟨p, hp, rfl⟩,
            List.mem_cons_of_mem _ (List.mem_cons_self _ _)⟩
        rcases hok p (List.mem_of_mem_take hp) with ⟨v, hv⟩
        have hcomp : VEvent.traceComplete p.1 ∈
            ((((hs.enum.drop i).take 3).zip (((hs.enum.drop i).take 3).map fun q =>
                verifySingleE (env.attempt2 q.1) q.2)).filterMap fun q =>
              match q.2 with
              | .ok _ => some (VEvent.traceComplete q.1.1)
              | .error _ => none) := by
          refine List.mem_filterMap.mpr ⟨(p, verifySingleE (env.attempt2 p.1) p.2), ?_, ?_⟩
          · exact mem_zip_map_self _ _ _ hp
          · rw [hv]
        exact ⟨List.mem_append.mpr (Or.inl (List.mem_append.mpr (Or.inr hflat))),
          List.mem_append.mpr (Or.inl (List.mem_append.mpr (Or.inr hflat2))),
          List.mem_append.mpr (Or.inr hcomp)⟩
      have hpend : ∀ p ∈ hs.enum.drop (i + 3),
          VEvent.tracePending p.1 ∈ ((evs ++ ((hs.enum.drop (i + 3)).map fun q =>
              VEvent.tracePending q.1))
            ++ (((hs.enum.drop i).take 3).map fun q =>
                [VEvent.traceRunning q.1, VEvent.call2 q.1]).flatten)
            ++ ((((hs.enum.drop i).take 3).zip (((hs.enum.drop i).take 3).map fun q =>
                verifySingleE (env.attempt2 q.1) q.2)).filterMap fun q =>
              match q.2 with
              | .ok _ => some (VEvent.traceComplete q.1.1)
              | .error _ => none) := by
        intro p hp
        exact List.mem_append.mpr (Or.inl (List.mem_append.mpr (Or.inl
          (List.mem_append.mpr (Or.inr (List.mem_map.mpr ⟨p, hp, rfl⟩))))))
      by_cases h3 : i + 3 < hs.length
      · rw [if_pos h3]
        constructor
        · intro p hp
          rw [← List.take_append_drop 3 (hs.enum.drop i), hdd] at hp
          rcases List.mem_append.mp hp with hp1 | hp1
          · rcases hbatchEvs p hp1 with ⟨e1, e2, e3⟩
            exact ⟨hmono _ _ (List.mem_append.mpr (Or.inl e1)),
              hmono _ _ (List.mem_append.mpr (Or.inl e2)),
              hmono _ _ (List.mem_append.mpr (Or.inl e3))⟩
          · exact (hstep _).1 p hp1
        · intro p hp
          exact hmono _ _ (List.mem_append.mpr (Or.inl (hpend p hp)))
      · rw [if_neg h3]
        constructor
        · intro p hp
          rw [← List.take_append_drop 3 (hs.enum.drop i), hdd] at hp
          rcases List.mem_append.mp hp with hp1 | hp1
          · rcases hbatchEvs p hp1 with ⟨e1, e2, e3⟩
            exact ⟨hmono _ _ e1, hmono _ _ e2, hmono _ _ e3⟩
          · exact (hstep _).1 p hp1
        · intro p hp
          exact hmono _ _ (hpend p hp)
    · constructor
      · intro p hp
        exact absurd hp (by
          rw [List.drop_eq_nil_of_le (by rw [List.enum_length]; omega)]
          exact List.not_mem_nil p)
      · intro p hp
        exact absurd hp (by
          rw [List.drop_eq_nil_of_le (by rw [List.enum_length]; omega)]
          exact List.not_mem_nil p)

theorem filter_sleep_batch_nil (l : List (Nat × Json)) :
    (l.map fun p => VEvent.tracePending p.1).filter (fun v => v == VEvent.sleep 1500) = [] := by
  rw [List.filter_eq_nil_iff]
  intro v hv
  rcases List.mem_map.mp hv with ⟨p, _, hp⟩
  subst hp
  intro h
  exact VEvent.noConfusion (eq_of_beq h)

theorem filter_sleep_flat_nil (l : List (Nat × Json)) :
    ((l.map fun p => [VEvent.traceRunning p.1, VEvent.call2 p.1]).flatten).filter
      (fun v => v == VEvent.sleep 1500) = [] := by
  rw [List.filter_eq_nil_iff]
  intro v hv
  rcases mem_batchPairEvs_shape _ _ hv with ⟨j, hj | hj⟩ <;> subst hj <;>
    exact fun h => VEvent.noConfusion (eq_of_beq h)

theorem filter_sleep_completes_nil (l : List ((Nat × Json) × Except JsError Json)) :
    (l.filterMap fun q =>
      match q.2 with
      | .ok _ => some (VEvent.traceComplete q.1.1)
      | .error _ => none).filter (fun v => v == VEvent.sleep 1500) = [] := by
  rw [List.filter_eq_nil_iff]
  intro v hv
  rcases mem_completes_shape _ _ hv with ⟨j, hj⟩
  subst hj
  intro h
  exact VEvent.noConfusion (eq_of_beq h)

theorem batchRecoveryGo_sleepCount (hs : List Json) (env : VerifyEnv) :
    ∀ n i acc evs, hs.length ≤ i + n → i < hs.length →
      (∀ p ∈ hs.enum.drop i, ∃ v, verifySingleE (env.attempt2 p.1) p.2 = .ok v) →
      ((batchRecoveryGo hs env i acc evs).2.filter fun v => v == VEvent.sleep 1500).length
        = (evs.filter fun v => v == VEvent.sleep 1500).length + (hs.length - i - 1) / 3 := by
  intro n
  induction n with
  | zero =>
    intro i acc evs hle hlt _
    omega
  | succ n ih =>
    intro i acc evs hle hlt hok
    have hout : ∃ vs, collectExcept (((hs.enum.drop i).take 3).map fun p =>
        verifySingleE (env.attempt2 p.1) p.2) = .ok vs := by
      refine collectExcept_ok_of_forall _ fun x hx => ?_
      rcases List.mem_map.mp hx with ⟨p, hp, hfx⟩
      rcases hok p (List.mem_of_mem_take hp) with ⟨v, hv⟩
      exact ⟨v, by rw [← hfx, hv]⟩
    rcases hout with ⟨vs, hc⟩
    have hdd : (hs.enum.drop i).drop 3 = hs.enum.drop (i + 3) := by
      rw [List.drop_drop, Nat.add_comm]
    have hok3 : ∀ p ∈ hs.enum.drop (i + 3), ∃ v,
        verifySingleE (env.attempt2 p.1) p.2 = .ok v := by
      intro p hp
      rw [← hdd] at hp
      exact hok p (List.mem_of_mem_drop hp)
    rw [batchRecoveryGo, dif_pos hlt]
    dsimp only
    rw [hc]
    dsimp only
    have hcntBig : ∀ evs2 : List VEvent,
        ((((evs ++ ((hs.enum.drop (i + 3)).map fun q => VEvent.tracePending q.1))
          ++ (((hs.enum.drop i).take 3).map fun q =>
              [VEvent.traceRunning q.1, VEvent.call2 q.1]).flatten)
          ++ ((((hs.enum.drop i).take 3).zip (((hs.enum.drop i).take 3).map fun q =>
              verifySingleE (env.attempt2 q.1) q.2)).filterMap fun q =>
            match q.2 with
            | .ok _ => some (VEvent.traceComplete q.1.1)
            | .error _ => none)) ++ evs2).filter (fun v => v == VEvent.sleep 1500) =
          evs.filter (fun v => v == VEvent.sleep 1500) ++
            evs2.filter (fun v => v == VEvent.sleep 1500) := by
      intro evs2
      rw [List.filter_append, List.filter_append, List.filter_append, List.filter_append,
        filter_sleep_batch_nil, filter_sleep_flat_nil, filter_sleep_completes_nil]
      simp
    by_cases h3 : i + 3 < hs.length
    · rw [if_pos h3]
      rw [ih (i + 3) _ _ (by omega) h3 hok3]
      rw [hcntBig [VEvent.sleep 1500]]
      rw [List.length_append]
      have hone : (([VEvent.sleep 1500] : List VEvent).filter
          (fun v => v == VEvent.sleep 1500)).length = 1 := by decide
      rw [hone]
      omega
    · rw [if_neg h3]
      rw [batchRecoveryGo, dif_neg (by omega)]
      dsimp only
      have h0 := hcntBig []
      simp only [List.append_nil, List.filter_nil] at h0
      rw [h0]
      omega

theorem phase1_evs_shape (hs : List Json) (env : VerifyEnv) (v : VEvent)
    (h : v ∈ (((hs.enum.map fun p => VEvent.traceRunning p.1)
      ++ (hs.enum.map fun p => VEvent.call1 p.1))
      ++ ((hs.enum.zip (hs.enum.map fun p => verifySingleE (env.attempt1 p.1) p.2)).filterMap
        fun q => match q.2 with
          | .ok _ => some (VEvent.traceComplete q.1.1)
          | .error _ => none))) :
    ∃ j, v = VEvent.traceRunning j ∨ v = VEvent.call1 j ∨ v = VEvent.traceComplete j := by
  rcases List.mem_append.mp h with h1 | h1
  · rcases List.mem_append.mp h1 with h2 | h2
    · rcases List.mem_map.mp h2 with ⟨p, _, hp⟩
      exact ⟨p.1, Or.inl hp.symm⟩
    · rcases List.mem_map.mp h2 with ⟨p, _, hp⟩
      exact ⟨p.1, Or.inr (Or.inl hp.symm)⟩
  · rcases mem_completes_shape _ _ h1 with ⟨k, hk⟩
    exact ⟨k, Or.inr (Or.inr hk)⟩

theorem runVerificationPhaseE_error_rate (hs : List Json) (env : VerifyEnv) (e : JsError)
    (herr : collectExcept (hs.enum.map fun p => verifySingleE (env.attempt1 p.1) p.2)
      = .error e)
    (hrl : isRateLimitSignal e = true) :
    runVerificationPhaseE hs env =
      batchRecoveryGo hs env 0 []
        (((hs.enum.map fun p => VEvent.traceRunning p.1)
          ++ (hs.enum.map fun p => VEvent.call1 p.1))
          ++ ((hs.enum.zip (hs.enum.map fun p => verifySingleE (env.attempt1 p.1) p.2)).filterMap
            fun q => match q.2 with
              | .ok _ => some (VEvent.traceComplete q.1.1)
              | .error _ => none)) := by
  unfold runVerificationPhaseE
  dsimp only
  rw [herr]
  dsimp only
  rw [if_pos hrl]

theorem runVerificationPhaseE_error_other (hs : List Json) (env : VerifyEnv) (e : JsError)
    (herr : collectExcept (hs.enum.map fun p => verifySingleE (env.attempt1 p.1) p.2)
      = .error e)
    (hrl : isRateLimitSignal e = false) :
    runVerificationPhaseE hs env =
      (.error e,
        ((hs.enum.map fun p => VEvent.traceRunning p.1)
          ++ (hs.enum.map fun p => VEvent.call1 p.1))
          ++ ((hs.enum.zip (hs.enum.map fun p => verifySingleE (env.attempt1 p.1) p.2)).filterMap
            fun q => match q.2 with
              | .ok _ => some (VEvent.traceComplete q.1.1)
              | .error _ => none)) := by
  unfold runVerificationPhaseE
  dsimp only
  rw [herr]
  dsimp only
  rw [if_neg (by rw [hrl]; exact Bool.false_ne_true)]

/-! ## Claim theorems -/
/-- C7 (amended).  The batched rate-limit recovery lives in the *verification*
fan-out of the legacy `geminiService` orchestrator, not in the critique
fan-out of `runSynthesis`.  There, when the parallel join rejects with a
rate-limit signal (status 429 or a 429/quota/too-many message), the phase
falls back to the sequential batch loop: the result is the in-order list of
per-hypothesis retry outcomes, every cooldown is exactly 1500 ms; when every
retry succeeds, the final list has one entry per hypothesis in original
order, each hypothesis re-emits running / call / complete events (and each
hypothesis beyond the first batch a pending re-mark), and the number of
cooldowns is `(n - 1) / 3`.  A rejection without a rate-limit signal is
re-raised unchanged, with no retry call and no cooldown. -/
theorem C7_rate_limit_batching (hs : List Json) (env : VerifyEnv) (e : JsError)
    (herr : collectExcept (hs.enum.map fun p => verifySingleE (env.attempt1 p.1) p.2)
      = .error e) :
    (isRateLimitSignal e = true →
      (runVerificationPhaseE hs env).1 =
        collectExcept (hs.enum.map fun p => verifySingleE (env.attempt2 p.1) p.2) ∧
      (∀ ms, VEvent.sleep ms ∈ (runVerificationPhaseE hs env).2 → ms = 1500) ∧
      ((∀ p ∈ hs.enum, ∃ v, verifySingleE (env.attempt2 p.1) p.2 = .ok v) →
        (∃ vs, (runVerificationPhaseE hs env).1 = .ok vs ∧ vs.length = hs.length) ∧
        (∀ p ∈ hs.enum,
          VEvent.traceRunning p.1 ∈ (runVerificationPhaseE hs env).2 ∧
          VEvent.call2 p.1 ∈ (runVerificationPhaseE hs env).2 ∧
          VEvent.traceComplete p.1 ∈ (runVerificationPhaseE hs env).2) ∧
        (∀ p ∈ hs.enum.drop 3,
          VEvent.tracePending p.1 ∈ (runVerificationPhaseE hs env).2) ∧
        (((runVerificationPhaseE hs env).2.filter fun v => v == VEvent.sleep 1500).length
          = (hs.length - 1) / 3))) ∧
    (isRateLimitSignal e = false →
      (runVerificationPhaseE hs env).1 = .error e ∧
      (∀ j, VEvent.call2 j ∉ (runVerificationPhaseE hs env).2) ∧
      (∀ ms, VEvent.sleep ms ∉ (runVerificationPhaseE hs env).2)) := by
  have hne : hs ≠ [] := by
    intro h
    subst h
    exact Except.noConfusion herr
  have hpos : 0 < hs.length := List.length_pos.mpr hne
  constructor
  · intro hrl
    have heq := runVerificationPhaseE_error_rate hs env e herr hrl
    set E := ((hs.enum.map fun p => VEvent.traceRunning p.1)
      ++ (hs.enum.map fun p => VEvent.call1 p.1))
      ++ ((hs.enum.zip (hs.enum.map fun p => verifySingleE (env.attempt1 p.1) p.2)).filterMap
        fun q => match q.2 with
          | .ok _ => some (VEvent.traceComplete q.1.1)
          | .error _ => none) with hE
    refine ⟨?_, ?_, ?_⟩
    · rw [heq, batchRecoveryGo_result hs env hs.length 0 [] E (by omega)]
      rw [List.drop_zero]
      cases collectExcept (hs.enum.map fun p => verifySingleE (env.attempt2 p.1) p.2) <;>
        simp [Except.map]
    · intro ms hms
      rw [heq] at hms
      rcases batchRecoveryGo_sleep hs env hs.length 0 [] E (by omega) ms hms with hin | h15
      · rw [hE] at hin
        rcases phase1_evs_shape hs env _ hin with ⟨j, hj | hj | hj⟩ <;>
          exact VEvent.noConfusion hj
      · exact h15
    · intro hok
      have hok0 : ∀ p ∈ hs.enum.drop 0, ∃ v, verifySingleE (env.attempt2 p.1) p.2 = .ok v := by
        rw [List.drop_zero]
        exact hok
      refine ⟨?_, ?_, ?_, ?_⟩
      · have hcoll : ∃ vs, collectExcept (hs.enum.map fun p =>
            verifySingleE (env.attempt2 p.1) p.2) = .ok vs := by
          refine collectExcept_ok_of_forall _ fun x hx => ?_
          rcases List.mem_map.mp hx with ⟨p, hp, hfx⟩
          rcases hok p hp with ⟨v, hv⟩
          exact ⟨v, by rw [← hfx, hv]⟩
        rcases hcoll with ⟨vs, hvs⟩
        refine ⟨vs, ?_, ?_⟩
        · rw [heq, batchRecoveryGo_result hs env hs.length 0 [] E (by omega),
            List.drop_zero, hvs]
          simp [Except.map]
        · rw [collectExcept_length _ _ hvs, List.length_map, List.enum_length]
      · intro p hp
        have hev := (batchRecoveryGo_events hs env hs.length 0 [] E (by omega) hok0).1 p
          (by rw [List.drop_zero]; exact hp)
        rw [heq]
        exact hev
      · intro p hp
        have hev := (batchRecoveryGo_events hs env hs.length 0 [] E (by omega) hok0).2 p
          (by rw [Nat.zero_add]; exact hp)
        rw [heq]
        exact hev
      · have hfil : (E.filter fun v => v == VEvent.sleep 1500) = [] := by
          rw [List.filter_eq_nil_iff]
          intro v hv
          rw [hE] at hv
          rcases phase1_evs_shape hs env v hv with ⟨j, hj | hj | hj⟩ <;> subst hj <;>
            exact fun h => VEvent.noConfusion (eq_of_beq h)
        have hcnt := batchRecoveryGo_sleepCount hs env hs.length 0 [] E (by omega) hpos hok0
        rw [hfil] at hcnt
        simp only [List.length_nil] at hcnt
        rw [heq]
        omega
  · intro hrl
    have heq := runVerificationPhaseE_error_other hs env e herr hrl
    refine ⟨by rw [heq], ?_, ?_⟩
    · intro j hj
      rw [heq] at hj
      rcases phase1_evs_shape hs env _ hj with ⟨k, hk | hk | hk⟩ <;>
        exact VEvent.noConfusion hk
    · intro ms hms
      rw [heq] at hms
      rcases phase1_evs_shape hs env _ hms with ⟨k, hk | hk | hk⟩ <;>
        exact VEvent.noConfusion hk

/-! ## Fallback-aggregation non-emptiness -/
theorem intercalate_go_length (sep : String) :
    ∀ (as : List String) (acc : String),
      acc.length ≤ (String.intercalate.go acc sep as).length := by
  intro as
  induction as with
  | nil => intro acc; exact Nat.le_refl _
  | cons a as ih =>
    intro acc
    calc acc.length ≤ (acc ++ sep ++ a).length := by
          rw [String.length_append, String.length_append]; omega
      _ ≤ _ := ih (acc ++ sep ++ a)

theorem createFallbackAggregation_ne_empty (c : ChildSolutionE) (rest : List ChildSolutionE) :
    (createFallbackAggregation (c :: rest)).aggregatedSolution ≠ "" := by
  have hform : (createFallbackAggregation (c :: rest)).aggregatedSolution =
      String.intercalate.go
        ("## Part " ++ toString (0 + 1) ++ ": " ++ c.query ++ "\n\n" ++ c.solution)
        "\n\n---\n\n"
        ((rest.enumFrom 1).map fun p =>
          "## Part " ++ toString (p.1 + 1) ++ ": " ++ p.2.query ++ "\n\n" ++ p.2.solution) :=
    rfl
  intro h
  have hlen := congrArg String.length h
  rw [hform] at hlen
  have hge := intercalate_go_length "\n\n---\n\n"
    ((rest.enumFrom 1).map fun p =>
      "## Part " ++ toString (p.1 + 1) ++ ": " ++ p.2.query ++ "\n\n" ++ p.2.solution)
    ("## Part " ++ toString (0 + 1) ++ ": " ++ c.query ++ "\n\n" ++ c.solution)
  have hpre : 8 ≤ ("## Part " ++ toString (0 + 1) ++ ": " ++ c.query
      ++ "\n\n" ++ c.solution).length := by
    rw [String.length_append, String.length_append, String.length_append,
      String.length_append, String.length_append]
    have h8 : ("## Part " : String).length = 8 := rfl
    omega
  have h0 : ("" : String).length = 0 := rfl
  omega

/-- C1.  In every state snapshot either tree engine emits (the ToT backbone
`runToT` and the legacy orchestrator `executeToT`), a node whose status is
`complete` and whose children list is non-empty has every child also at
status `complete`: parents only transition out of their child-processing
phase after the join of all child runs. -/
theorem C1_complete_only_after_children (env : BackboneEnv) (prompts : PromptsE)
    (envL : LegacyEnv) (query : String) (maxDepth fuel : Nat) (s : ToTStateE)
    (i : Nat) (nd : ToTNodeE) :
    (s ∈ (runToTB env prompts query maxDepth fuel).run.snaps →
      getN s i = some nd → nd.status = ToTStatus.complete →
      ∀ c ∈ nd.children, ∃ q, getN s c = some q ∧ q.status = ToTStatus.complete) ∧
    (s ∈ (executeToTO envL query maxDepth fuel).run.snaps →
      getN s i = some nd → nd.status = ToTStatus.complete →
      ∀ c ∈ nd.children, ∃ q, getN s c = some q ∧ q.status = ToTStatus.complete) := by
  constructor
  · intro hs hnd hst
    exact ((runToTB_snaps_inv env prompts query maxDepth fuel s hs) i nd hnd).2.2 hst
  · intro hs hnd hst
    exact ((executeToTO_snaps_inv envL query maxDepth fuel s hs) i nd hnd).2.2 hst

/-- C2 (amended).  In the ToT *backbone* (`tot.backbone.ts`), decomposition
is honored only under the full admissibility guard: in every emitted
snapshot, a node with children sits at depth `< maxDepth - 1` and has at
least two children.  The depth ceiling is *not* shared by the legacy
orchestrator (`totOrchestrator.ts`), whose guard lacks the depth conjunct —
see the counterexample, where a node at depth `maxDepth - 1` acquires
children. -/
theorem C2_admissibility_depth (env : BackboneEnv) (prompts : PromptsE)
    (query : String) (maxDepth fuel : Nat) (s : ToTStateE) (i : Nat) (nd : ToTNodeE)
    (hs : s ∈ (runToTB env prompts query maxDepth fuel).run.snaps)
    (hnd : getN s i = some nd) (hch : nd.children ≠ []) :
    nd.depth < maxDepth - 1 ∧ 2 ≤ nd.children.length :=
  have h := ((runToTB_snaps_inv env prompts query maxDepth fuel s hs) i nd hnd).2.1 hch
  ⟨h.2, h.1⟩

/-- C2, counterexample.  A legacy (`executeToT`) run with `maxDepth = 1`:
the root (depth 0 = `maxDepth - 1`) still acquires two children, because
`totOrchestrator.processNode`'s guard checks only the decision and the
sub-problem count, never `depth < maxDepth - 1`. -/
theorem C2_counterexample_legacy_depth :
    ((executeToTO envL1 "Q" 1 3).run.st ∈ (executeToTO envL1 "Q" 1 3).run.snaps) ∧
    (getN (executeToTO envL1 "Q" 1 3).run.st 0).map (fun nd => (nd.depth, nd.children))
      = some (0, [1, 2]) ∧
    ¬ (0 : Nat) < 1 - 1 := by
  refine ⟨?_, by decide, by decide⟩
  decide

/-- C3.  The decomposition floor holds at both levels: (1) the decomposer
service overrides a parsed `true` decision to `false` with the
insufficient-extraction reason whenever fewer than two valid sub-problems
were extracted; (2) in every snapshot either engine emits, a node with
children has at least two of them (the engines' own `>= 2` admissibility
conjunct). -/
theorem C3_decomposition_floor :
    (∀ depth maxDepth raw (j : Json), depth < maxDepth →
      j.getField "shouldDecompose" = some (.bool true) →
      (validateSubProblemsE (j.getField "subProblems")).length < 2 →
      (decomposerAnalyze depth maxDepth (.ok (.json raw j))).1.shouldDecompose = false ∧
      (decomposerAnalyze depth maxDepth (.ok (.json raw j))).1.reasoning =
        "Decomposition cancelled: insufficient sub-problems extracted.") ∧
    (∀ env prompts query maxDepth fuel s,
      s ∈ (runToTB env prompts query maxDepth fuel).run.snaps →
      ∀ i nd, getN s i = some nd → nd.children ≠ [] → 2 ≤ nd.children.length) ∧
    (∀ envL query maxDepth fuel s,
      s ∈ (executeToTO envL query maxDepth fuel).run.snaps →
      ∀ i nd, getN s i = some nd → nd.children ≠ [] → 2 ≤ nd.children.length) := by
  refine ⟨?_, ?_, ?_⟩
  · intro depth maxDepth raw j hdm hsd hlen
    rw [decomposerAnalyze.eq_def, if_neg (Nat.not_le.mpr hdm)]
    dsimp only
    cases j with
    | null => exact absurd hsd (by simp [Json.getField])
    | bool b => exact absurd hsd (by simp [Json.getField])
    | num n => exact absurd hsd (by simp [Json.getField])
    | str s => exact absurd hsd (by simp [Json.getField])
    | arr xs => exact absurd hsd (by simp [Json.getField])
    | obj fs =>
      rw [hsd]
      dsimp only
      rw [if_pos]
      · exact ⟨rfl, rfl⟩
      · rw [Bool.true_and]
        exact decide_eq_true (by
          rw [if_pos rfl]
          exact hlen)
  · intro env prompts query maxDepth fuel s hs i nd hnd hch
    exact (((runToTB_snaps_inv env prompts query maxDepth fuel s hs) i nd hnd).2.1 hch).1
  · intro envL query maxDepth fuel s hs i nd hnd hch
    exact (((executeToTO_snaps_inv envL query maxDepth fuel s hs) i nd hnd).2.1 hch).1

/-- C4 (amended).  The decomposer service short-circuits exactly when
`depth ≥ maxDepth`: it then returns `shouldDecompose = false` with the
depth-exhaustion reason, an empty sub-problem list, and issues no completion
request.  The spec's boundary example (`depth = 0`, `maxDepth = 1`) is *not*
in that region — there a completion request is issued and the decision can
be `true` (see the counterexample). -/
theorem C4_depth_short_circuit (depth maxDepth : Nat) (resp : Except Unit RespText)
    (h : maxDepth ≤ depth) :
    decomposerAnalyze depth maxDepth resp =
      ({ shouldDecompose := false,
         reasoning := "Max depth (" ++ toString maxDepth ++ ") reached. Executing as leaf node.",
         subProblems := [] }, false) := by
  rw [decomposerAnalyze.eq_def, if_pos h]

/-- C4, counterexample.  At `depth = 0`, `maxDepth = 1` the Analyzer does
*not* short-circuit: it issues a completion request (second component
`true`) and honors a `true` decision with two sub-problems — the spec's
example scenario expected `shouldDecompose = false` with no model call. -/
theorem C4_counterexample_boundary :
    (decomposerAnalyze 0 1 (.ok (.json "d" decompTrueJson))).1.shouldDecompose = true ∧
    (decomposerAnalyze 0 1 (.ok (.json "d" decompTrueJson))).2 = true := by decide

/-- C4, witness. -/
theorem C4_witness :
    decomposerAnalyze 2 1 (.ok .empty) =
      ({ shouldDecompose := false,
         reasoning := "Max depth (" ++ toString 1 ++ ") reached. Executing as leaf node.",
         subProblems := [] }, false) :=
  C4_depth_short_circuit 2 1 (.ok .empty) (by decide)

/-- C5 (amended).  Each parse site is total with a defined fallback on a
*malformed* (JSON.parse-throwing) text: divergence substitutes the single
direct-execution strategy, critique and synthesis their default objects,
decomposition the do-not-decompose default, aggregation the "Part N"
concatenation.  The *empty* synthesis text, however, does not produce the
minimal standard blueprint: it parses to `{}`, the `safeguards` access
throws, and the run ends in the outer catch with no blueprint and the plain
fallback prompt. -/
theorem C5_parser_fallbacks (raw : String) (depth maxDepth : Nat)
    (c1 c2 : ChildSolutionE) (rest : List ChildSolutionE)
    (query : String) (prompts : PromptsE) (env : SynthEnv) (isToTMode : Bool) :
    parseStrategies (.malformed raw) = defaultStrategyList ∧
    parseCritique (.malformed raw) = defaultCritique ∧
    parseBlueprint (.malformed raw) = defaultBlueprintJson ∧
    (depth < maxDepth →
      decomposerAnalyze depth maxDepth (.ok (.malformed raw)) = (defaultDecomposition, true)) ∧
    aggregateService (c1 :: c2 :: rest) (.ok (.malformed raw)) =
      (createFallbackAggregation (c1 :: c2 :: rest), true) ∧
    (env.synthResp = .ok .empty →
      (runSynthesisE query prompts env isToTMode).thinking.masterBlueprint = none ∧
      (runSynthesisE query prompts env isToTMode).prompt = prompts.final query none) := by
  refine ⟨rfl, rfl, rfl, ?_, rfl, ?_⟩
  · intro hdm
    rw [decomposerAnalyze.eq_def, if_neg (Nat.not_le.mpr hdm)]
  · intro hsr
    unfold runSynthesisE
    cases hdiv : env.divResp with
    | error e => exact ⟨rfl, rfl⟩
    | ok rt =>
      dsimp only
      cases hstrat : parseStrategies rt with
      | arr xs =>
        dsimp only
        by_cases hcap : isToTMode = true ∧ 3 < xs.length
        · rw [if_pos hcap]
          dsimp only
          cases hcoll : collectExcept ((xs.take 3).enum.map fun p =>
              critiqueSingleE (env.critResp p.1) p.2) with
          | error e => exact ⟨rfl, rfl⟩
          | ok critiqued =>
            dsimp only
            rw [hsr]
            exact ⟨rfl, rfl⟩
        · rw [if_neg hcap]
          dsimp only
          cases hcoll : collectExcept (xs.enum.map fun p =>
              critiqueSingleE (env.critResp p.1) p.2) with
          | error e => exact ⟨rfl, rfl⟩
          | ok critiqued =>
            dsimp only
            rw [hsr]
            exact ⟨rfl, rfl⟩
      | null => exact ⟨rfl, rfl⟩
      | bool b => exact ⟨rfl, rfl⟩
      | num n => exact ⟨rfl, rfl⟩
      | str s => exact ⟨rfl, rfl⟩
      | obj fs => exact ⟨rfl, rfl⟩

/-- C5, counterexample.  One strategy, parsable critique, *empty* synthesis
text: the claim expects the synthesis parse site to substitute a minimal
standard blueprint, but the run ends with no blueprint at all — the parse
failure escalates (as a `safeguards` access throw) to the outer catch, whose
prompt carries no blueprint. -/
theorem C5_counterexample_empty_synthesis :
    (runSynthesisE "q" promptsId envC5e false).thinking.masterBlueprint = none ∧
    (runSynthesisE "q" promptsId envC5e false).thinking.state = "synthesizing" ∧
    (runSynthesisE "q" promptsId envC5e false).prompt = "q#F" := by decide

/-- C5, witness. -/
theorem C5_witness :
    decomposerAnalyze 0 3 (.ok (.malformed "x")) = (defaultDecomposition, true) ∧
    (runSynthesisE "q" promptsId envC5e false).thinking.masterBlueprint = none ∧
    (runSynthesisE "q" promptsId envC5e false).prompt = promptsId.final "q" none :=
  ⟨(C5_parser_fallbacks "x" 0 3 ⟨"a", "sa"⟩ ⟨"b", "sb"⟩ [] "q" promptsId envC5e
      false).2.2.2.1 (by decide),
   (C5_parser_fallbacks "x" 0 3 ⟨"a", "sa"⟩ ⟨"b", "sb"⟩ [] "q" promptsId envC5e
      false).2.2.2.2.2 rfl⟩

/-- C6 (amended).  In the ToT backbone no node is ever marked `failed`:
leaf-pipeline errors are absorbed inside the leaf step, while decomposition
and aggregation rejections happen *outside* the node's try and escape the
node boundary entirely — the whole session is then marked `failed` (second
conjunct), instead of the failing node (see the counterexample, where the
failing node is left at `aggregating` while its subtree is `complete`). -/
theorem C6_node_failure_containment (env : BackboneEnv) (prompts : PromptsE)
    (query : String) (maxDepth fuel : Nat) :
    (∀ s ∈ (runToTB env prompts query maxDepth fuel).run.snaps,
      ∀ i nd, getN s i = some nd → nd.status ≠ ToTStatus.failed) ∧
    (∀ e, (runTreeSession (backboneCfg env prompts maxDepth) query maxDepth fuel).2.1
        = .error e →
      (runToTB env prompts query maxDepth fuel).run.st.status = OverallStatus.failed) := by
  constructor
  · intro s hs i nd hnd
    exact ((runToTB_snaps_inv env prompts query maxDepth fuel s hs) i nd hnd).1
  · intro e he
    rw [runToTB_run_eq]
    exact (runTreeSession_spec _ _ (backboneCfg_ok env prompts maxDepth)
      query maxDepth fuel).2.2 e he

/-- C6, counterexample.  The aggregation call of the root rejects: the
exception is *not* caught at the node boundary — the root is left at status
`aggregating` with no recorded error, no node is `failed`, the whole run is
marked `failed`, and the final prompt degrades to the no-blueprint fallback.
The claim's "only that node's status becomes `failed`" does not happen. -/
theorem C6_counterexample_agg_escape :
    (getN (runToTB envC6e promptsId "Q" 3 5).run.st 0).map (fun nd => (nd.status, nd.error))
      = some (ToTStatus.aggregating, none) ∧
    (getN (runToTB envC6e promptsId "Q" 3 5).run.st 1).map (fun nd => nd.status)
      = some ToTStatus.complete ∧
    (runToTB envC6e promptsId "Q" 3 5).run.st.status = OverallStatus.failed ∧
    (runToTB envC6e promptsId "Q" 3 5).prompt = "Q#F" := by decide

/-- C8 (amended).  The aggregator *service* keeps the claimed contract: with
two or more children, every degenerate completion outcome — a rejected
call, malformed text, the empty text, a `null` parse result, or a parsable
response that lacks a string `aggregatedSolution` field — falls back to the
deterministic "Part N" concatenation, which is non-empty and covers every
child exactly once.  The ToT *backbone's* own aggregation parser does not:
a parsable response without a truthy `aggregatedSolution` field collapses to
the empty string (last conjunct), never to the concatenation. -/
theorem C8_aggregator_fallback (c1 c2 : ChildSolutionE) (rest : List ChildSolutionE)
    (raw : String) (j : Json) :
    (aggregateService (c1 :: c2 :: rest) (.ok (.malformed raw)) =
      (createFallbackAggregation (c1 :: c2 :: rest), true)) ∧
    (aggregateService (c1 :: c2 :: rest) (.error ()) =
      (createFallbackAggregation (c1 :: c2 :: rest), true)) ∧
    (aggregateService (c1 :: c2 :: rest) (.ok .empty) =
      (createFallbackAggregation (c1 :: c2 :: rest), true)) ∧
    (aggregateService (c1 :: c2 :: rest) (.ok (.json raw .null)) =
      (createFallbackAggregation (c1 :: c2 :: rest), true)) ∧
    ((∀ s2, j.getField "aggregatedSolution" ≠ some (Json.str s2)) →
      aggregateService (c1 :: c2 :: rest) (.ok (.json raw j)) =
        (createFallbackAggregation (c1 :: c2 :: rest), true)) ∧
    (createFallbackAggregation (c1 :: c2 :: rest)).aggregatedSolution ≠ "" ∧
    (createFallbackAggregation (c1 :: c2 :: rest)).childContributions.length
      = (c1 :: c2 :: rest).length ∧
    (j ≠ .null → jsTruthy (j.getField "aggregatedSolution") = false →
      (aggregateB (.ok (.json raw j))).map (fun a => a.aggregatedSolution)
        = .ok (Json.str "")) := by
  refine ⟨rfl, rfl, rfl, rfl, ?_, createFallbackAggregation_ne_empty c1 (c2 :: rest), ?_, ?_⟩
  · intro hnostr
    cases j with
    | null => rfl
    | bool b => rfl
    | num n => rfl
    | str s => rfl
    | arr xs => rfl
    | obj fs =>
      dsimp only [aggregateService]
      cases hf : (Json.obj fs).getField "aggregatedSolution" with
      | none => rfl
      | some v =>
        cases v with
        | str s2 => exact absurd hf (hnostr s2)
        | null => rfl
        | bool b => rfl
        | num n => rfl
        | arr xs => rfl
        | obj fs2 => rfl
  · rw [createFallbackAggregation]
    dsimp only
    rw [List.length_map, List.enum_length]
  · intro hj hfield
    cases j with
    | null => exact absurd rfl hj
    | bool b =>
      dsimp only [aggregateB, RespText.parseOrEmptyObj]
      rw [if_neg (by rw [hfield]; exact Bool.false_ne_true)]
      rfl
    | num n =>
      dsimp only [aggregateB, RespText.parseOrEmptyObj]
      rw [if_neg (by rw [hfield]; exact Bool.false_ne_true)]
      rfl
    | str s =>
      dsimp only [aggregateB, RespText.parseOrEmptyObj]
      rw [if_neg (by rw [hfield]; exact Bool.false_ne_true)]
      rfl
    | arr xs =>
      dsimp only [aggregateB, RespText.parseOrEmptyObj]
      rw [if_neg (by rw [hfield]; exact Bool.false_ne_true)]
      rfl
    | obj fs =>
      dsimp only [aggregateB, RespText.parseOrEmptyObj]
      rw [if_neg (by rw [hfield]; exact Bool.false_ne_true)]
      rfl

/-- C8, counterexample.  A parsable aggregation response without an
`aggregatedSolution` field, on a tree with two children: the backbone's
`parsed.aggregatedSolution || ""` collapses the result to the empty string —
not the labeled "Part N" concatenation, and not non-empty — and the run
completes with that empty aggregated solution as the root result. -/
theorem C8_counterexample_empty_aggregation :
    aggregateB (.ok (.json "noagg" (.obj []))) =
      .ok { aggregatedSolution := .str "", childContributions := [] } ∧
    (getN (runToTB envC8e promptsId "Q" 3 5).run.st 0).map (fun nd => (nd.status, nd.result))
      = some (ToTStatus.complete, some (.aggregated (.str "") [])) := by
  exact ⟨rfl, by decide⟩

/-- C8, witness. -/
theorem C8_witness :
    aggregateService [⟨"qa", "sa"⟩, ⟨"qb", "sb"⟩] (.ok (.malformed "x")) =
      (createFallbackAggregation [⟨"qa", "sa"⟩, ⟨"qb", "sb"⟩], true) ∧
    aggregateService [⟨"qa", "sa"⟩, ⟨"qb", "sb"⟩] (.ok (.json "noagg" (.obj []))) =
      (createFallbackAggregation [⟨"qa", "sa"⟩, ⟨"qb", "sb"⟩], true) ∧
    (aggregateB (.ok (.json "noagg" (.obj [])))).map (fun a => a.aggregatedSolution)
      = .ok (Json.str "") :=
  ⟨(C8_aggregator_fallback ⟨"qa", "sa"⟩ ⟨"qb", "sb"⟩ [] "x" (.obj [])).1,
   (C8_aggregator_fallback ⟨"qa", "sa"⟩ ⟨"qb", "sb"⟩ [] "noagg" (.obj [])).2.2.2.2.1
     (fun s2 h => Option.noConfusion h),
   (C8_aggregator_fallback ⟨"qa", "sa"⟩ ⟨"qb", "sb"⟩ [] "noagg" (.obj [])).2.2.2.2.2.2.2
     (by decide) (by decide)⟩

/-- C9 (amended).  With `forceDeepMode` unset, the router selects the ToT
backbone exactly when the classifier's `needsToT` field is truthy — the
reported `complexity` is logged but never consulted (see the counterexample:
ToT is chosen with complexity "simple").  A failed classification call falls
back to `needsToT = false`, hence the Synthesis backbone.  `forceDeepMode`
always selects ToT with no classification. -/
theorem C9_backbone_selection (resp : Except Unit RespText) :
    selectBackbone true resp = BackboneChoice.tot ∧
    selectBackbone false resp =
      (if (classifyNeedsToTE resp).needsToT then BackboneChoice.tot
       else BackboneChoice.synthesis) ∧
    selectBackbone false (.error ()) = BackboneChoice.synthesis := by
  refine ⟨rfl, ?_, rfl⟩
  rw [selectBackbone, if_neg (by exact Bool.false_ne_true)]

/-- C9, counterexample.  The classifier reports `needsToT = true` with
complexity "simple" (trivial), and the router still selects the ToT
backbone: the "non-trivial complexity" condition of the claim is not
checked anywhere. -/
theorem C9_counterexample_trivial_complexity :
    (classifyNeedsToTE (.ok (.json "c" (.obj [("needsToT", .bool true),
        ("complexity", .str "simple")])))).complexity = "simple" ∧
    selectBackbone false (.ok (.json "c" (.obj [("needsToT", .bool true),
        ("complexity", .str "simple")]))) = BackboneChoice.tot := by decide

/-- C10 (amended).  Every sub-problem the decomposer returns passed the
validator — its `id`, `title` and `query` fields are strings taken from the
model's entry — and a `false` decision comes with an empty sub-problem list
*except* in the insufficient-extraction override, which keeps the (fewer
than two) extracted sub-problems alongside the `false` decision (see the
counterexample). -/
theorem C10_subproblem_validation (raw : Option Json) (d md : Nat)
    (resp : Except Unit RespText) :
    (∀ sp ∈ validateSubProblemsE raw, ∃ xs e, raw = some (Json.arr xs) ∧ e ∈ xs ∧
      e.getField "id" = some (.str sp.id) ∧ e.getField "title" = some (.str sp.title) ∧
      e.getField "query" = some (.str sp.query)) ∧
    ((decomposerAnalyze d md resp).1.shouldDecompose = false →
      (decomposerAnalyze d md resp).1.subProblems = [] ∨
      (decomposerAnalyze d md resp).1.reasoning =
        "Decomposition cancelled: insufficient sub-problems extracted.") := by
  constructor
  · intro sp hsp
    cases raw with
    | none => cases hsp
    | some j =>
      cases j with
      | arr xs =>
        rcases List.mem_filterMap.mp hsp with ⟨e, he, hfe⟩
        refine ⟨xs, e, rfl, he, ?_⟩
        cases h1 : e.getField "id" with
        | none => rw [h1] at hfe; exact Option.noConfusion hfe
        | some v1 =>
          cases v1 <;> rw [h1] at hfe <;> try exact Option.noConfusion hfe
          case str i =>
            cases h2 : e.getField "title" with
            | none => rw [h2] at hfe; exact Option.noConfusion hfe
            | some v2 =>
              cases v2 <;> rw [h2] at hfe <;> try exact Option.noConfusion hfe
              case str ttl =>
                cases h3 : e.getField "query" with
                | none => rw [h3] at hfe; exact Option.noConfusion hfe
                | some v3 =>
                  cases v3 <;> rw [h3] at hfe <;> try exact Option.noConfusion hfe
                  case str q =>
                    have hsp2 := Option.some.inj hfe
                    rw [← hsp2]
                    exact ⟨rfl, rfl, rfl⟩
      | null => cases hsp
      | bool b => cases hsp
      | num n => cases hsp
      | str s => cases hsp
      | obj fs => cases hsp
  · intro hfalse
    rw [decomposerAnalyze.eq_def] at hfalse ⊢
    by_cases hd : md ≤ d
    · rw [if_pos hd]
      exact Or.inl rfl
    · rw [if_neg hd] at hfalse ⊢
      cases resp with
      | error e => exact Or.inl rfl
      | ok rt =>
        dsimp only at hfalse ⊢
        cases rt with
        | empty => exact Or.inl rfl
        | malformed raw2 => exact Or.inl rfl
        | json raw2 j =>
          cases j with
          | null => exact Or.inl rfl
          | bool b => exact Or.inl rfl
          | num n => exact Or.inl rfl
          | str s => exact Or.inl rfl
          | arr xs => exact Or.inl rfl
          | obj fs =>
            dsimp only at hfalse ⊢
            cases hf : (Json.obj fs).getField "shouldDecompose" with
            | none => exact Or.inl rfl
            | some v =>
              cases v with
              | null => exact Or.inl rfl
              | num n2 => exact Or.inl rfl
              | str s2 => exact Or.inl rfl
              | arr xs2 => exact Or.inl rfl
              | obj fs2 => exact Or.inl rfl
              | bool b =>
                cases b with
                | false => exact Or.inl rfl
                | true =>
                  rw [hf] at hfalse
                  dsimp only at hfalse ⊢
                  by_cases hlen2 :
                      (validateSubProblemsE ((Json.obj fs).getField "subProblems")).length < 2
                  · refine Or.inr ?_
                    rw [if_pos]
                    rw [Bool.true_and]
                    exact decide_eq_true (by rw [if_pos rfl]; exact hlen2)
                  · exfalso
                    rw [if_neg] at hfalse
                    · exact Bool.noConfusion hfalse
                    · rw [Bool.true_and]
                      intro hdec
                      rw [if_pos rfl] at hdec
                      exact hlen2 (of_decide_eq_true hdec)

/-- C10, counterexample.  A `true` decision with a single valid sub-problem:
the decomposer overrides the decision to `false` but *keeps* the extracted
sub-problem — the returned record has `shouldDecompose = false` with a
non-empty `subProblems` list. -/
theorem C10_counterexample_retained_subproblems :
    (decomposerAnalyze 0 3 (.ok (.json "d" decompOneSubJson))).1 =
      { shouldDecompose := false,
        reasoning := "Decomposition cancelled: insufficient sub-problems extracted.",
        subProblems := [{ id := "a", title := "Ta", query := "Qa", dependency := none }] } := by
  decide

/-- C7, counterexample.  In `runSynthesis` (the cited critique fan-out) a
rate-limit rejection of the first critique call triggers *no* batched
recovery: the run issues exactly one critique request, re-raises into the
outer catch (fallback prompt, thinking stuck at "critiquing"), and no
retry or cooldown happens. -/
theorem C7_counterexample_no_retry_in_critique :
    isRateLimitSignal rlErr = true ∧
    runSynthesisE "q" promptsId envC7e false =
      { prompt := "q#F",
        thinking := { state := "critiquing", hypotheses := .arr [strategyJson],
                      masterBlueprint := none },
        calls := [SynthCall.divCall, SynthCall.critCall 0] } := by decide

/-- C7, witness. -/
theorem C7_witness :
    (runVerificationPhaseE hsW vEnvW).1 =
      collectExcept (hsW.enum.map fun p => verifySingleE (vEnvW.attempt2 p.1) p.2) :=
  ((C7_rate_limit_batching hsW vEnvW rlErr rfl).1 (by decide)).1

/-- C1, witness. -/
theorem C1_witness :
    ∃ q, getN (runToTB envB1 promptsId "Q" 3 5).run.st 1 = some q ∧
      q.status = ToTStatus.complete :=
  (C1_complete_only_after_children envB1 promptsId envL1 "Q" 3 5
      (runToTB envB1 promptsId "Q" 3 5).run.st 0 ndB1root).1
    (by decide) (by decide) (by decide) 1 (by decide)

/-- C2, witness. -/
theorem C2_witness :
    ndB1root.depth < 3 - 1 ∧ 2 ≤ ndB1root.children.length :=
  C2_admissibility_depth envB1 promptsId "Q" 3 5
    (runToTB envB1 promptsId "Q" 3 5).run.st 0 ndB1root
    (by decide) (by decide) (by decide)

/-- C3, witness. -/
theorem C3_witness :
    (decomposerAnalyze 0 3 (.ok (.json "d" decompOneSubJson))).1.shouldDecompose = false ∧
    (decomposerAnalyze 0 3 (.ok (.json "d" decompOneSubJson))).1.reasoning =
      "Decomposition cancelled: insufficient sub-problems extracted." :=
  C3_decomposition_floor.1 0 3 "d" decompOneSubJson (by decide) (by decide) (by decide)

/-- C6, witness. -/
theorem C6_witness :
    ndC6root.status ≠ ToTStatus.failed ∧
    (runToTB envC6e promptsId "Q" 3 5).run.st.status = OverallStatus.failed :=
  ⟨(C6_node_failure_containment envC6e promptsId "Q" 3 5).1
      (runToTB envC6e promptsId "Q" 3 5).run.st (by decide) 0 ndC6root (by decide),
   (C6_node_failure_containment envC6e promptsId "Q" 3 5).2 TErr.oracle rfl⟩

/-- C10, witness. -/
theorem C10_witness :
    (∃ xs e, (some (Json.arr [spJson "a"]) : Option Json) = some (Json.arr xs) ∧ e ∈ xs ∧
      e.getField "id" = some (.str "a") ∧ e.getField "title" = some (.str "Ta") ∧
      e.getField "query" = some (.str "Qa")) ∧
    ((decomposerAnalyze 0 3 (.ok (.json "d" decompOneSubJson))).1.subProblems = [] ∨
      (decomposerAnalyze 0 3 (.ok (.json "d" decompOneSubJson))).1.reasoning =
        "Decomposition cancelled: insufficient sub-problems extracted.") :=
  ⟨(C10_subproblem_validation (some (.arr [spJson "a"])) 0 3
      (.ok (.json "d" decompOneSubJson))).1
    { id := "a", title := "Ta", query := "Qa", dependency := none } (by decide),
   (C10_subproblem_validation (some (.arr [spJson "a"])) 0 3
      (.ok (.json "d" decompOneSubJson))).2 (by decide)⟩
